import Mathlib

/-!
# Verification of the Core Entity Resolution subsystem

Shallow embedding of `src/data/fahrplanbuch/src/populate_core_entities.py`
(the `ActivityPeriod` / `StationCandidate` / `LineCandidate` value types,
the `CoreEntityResolver` grouping and side-resolution logic, and the
`CoreEntityPopulator` upsert/merge logic), together with theorems settling
the claims C1-C10 about this code.

Modelling conventions:
* Python `int` years are modelled as `Nat` (all years in the data are
  non-negative calendar years).
* Python `float` coordinates/confidences are modelled as `Rat`; the single
  transcendental operation `math.cos(math.radians x)` is abstracted as an
  arbitrary function `cosr : Rat -> Rat` that every theorem quantifies over.
* Python `dict`s are modelled as association lists with the usual dict
  semantics: lookup finds the first (unique) matching key, assignment to an
  existing key replaces the value in place, assignment to a fresh key
  appends at the end (Python dicts preserve insertion order).
* Python `set`s are modelled as `Finset` where the code sorts them, and as
  lists of distinct elements where the code merely iterates/queries them.
* The JSON string produced by `json.dumps` is modelled structurally
  (`PeriodJson`): `json.dumps` stringifies the integer keys of
  `missing_reasons`; decimal strings are modelled as their little-endian
  digit lists (`Nat.digits 10`), and `int(k)` as `Nat.ofDigits 10`.
* The Neo4j store is modelled as explicit data (`Store`): node lists plus a
  `HAS_SNAPSHOT` edge list; Cypher `MERGE` of an edge is membership-guarded
  append, `MATCH ... SET` is an in-place map over the matching nodes, and
  `datetime()` is an explicit `now : Nat` parameter.
-/

/-- Python `sorted(...)` on a list of naturals. -/
def pysorted (l : List Nat) : List Nat :=
  l.insertionSort (· ≤ ·)

/-- Membership test / lookup in a Python dict `Dict[int, str]` modelled as an
association list: `d.get(y)` / `y in d`. -/
def reasonsFind (l : List (Nat × String)) (y : Nat) : Option String :=
  (l.find? (fun p => p.1 = y)).map (·.2)

/-- `@dataclass ActivityPeriod` (populate_core_entities.py lines 45-52). -/
structure ActivityPeriod where
  start_snapshot : Nat
  end_snapshot : Nat
  observed_snapshots : List Nat
  missing_snapshots : List Nat
  missing_reasons : List (Nat × String)
  deriving DecidableEq

/-- `ActivityPeriod.get_all_snapshots_in_period` (line 84-86):
`sorted(set(self.observed_snapshots + self.missing_snapshots))`. -/
def ActivityPeriod.get_all_snapshots_in_period (p : ActivityPeriod) : List Nat :=
  pysorted (p.observed_snapshots ++ p.missing_snapshots).dedup

/-- The flat dict produced by `ActivityPeriod.to_dict` (lines 54-63).
`total_period_years` is Python int subtraction, hence `Int`;
`observation_rate` is a Python float ratio, modelled as `Rat`. -/
structure PeriodDict where
  start_snapshot : Nat
  end_snapshot : Nat
  observed_snapshots : List Nat
  missing_snapshots : List Nat
  missing_reasons : List (Nat × String)
  total_period_years : Int
  observation_rate : Rat
  deriving DecidableEq

/-- `ActivityPeriod.to_dict` (lines 54-63). -/
def ActivityPeriod.to_dict (p : ActivityPeriod) : PeriodDict :=
  { start_snapshot := p.start_snapshot
    end_snapshot := p.end_snapshot
    observed_snapshots := pysorted p.observed_snapshots
    missing_snapshots := pysorted p.missing_snapshots
    missing_reasons := p.missing_reasons
    total_period_years := (p.end_snapshot : Int) - (p.start_snapshot : Int)
    observation_rate :=
      if p.get_all_snapshots_in_period ≠ [] then
        (p.observed_snapshots.length : Rat) / (p.get_all_snapshots_in_period.length : Rat)
      else 0 }

/-- The JSON object stored in Neo4j: `json.dumps` stringifies the integer
keys of `missing_reasons`; a decimal string is modelled as its little-endian
digit list. -/
structure PeriodJson where
  start_snapshot : Nat
  end_snapshot : Nat
  observed_snapshots : List Nat
  missing_snapshots : List Nat
  missing_reasons : List (List Nat × String)
  total_period_years : Int
  observation_rate : Rat
  deriving DecidableEq

/-- `json.dumps` of a period dict (the key-stringification step of
`to_json_string`, line 65-67). -/
def PeriodDict.dumps (d : PeriodDict) : PeriodJson :=
  { start_snapshot := d.start_snapshot
    end_snapshot := d.end_snapshot
    observed_snapshots := d.observed_snapshots
    missing_snapshots := d.missing_snapshots
    missing_reasons := d.missing_reasons.map (fun p => (Nat.digits 10 p.1, p.2))
    total_period_years := d.total_period_years
    observation_rate := d.observation_rate }

/-- `ActivityPeriod.to_json_string` (lines 65-67). -/
def ActivityPeriod.to_json_string (p : ActivityPeriod) : PeriodJson :=
  p.to_dict.dumps

/-- `ActivityPeriod.from_json_string` (lines 69-82): a falsy input (`None` or
the empty string, modelled as `none`) yields the zero period; otherwise the
five stored fields are read back, `missing_reasons` keys via `int(k)`
(`Nat.ofDigits 10`). -/
def ActivityPeriod.from_json_string (json_str : Option PeriodJson) : ActivityPeriod :=
  match json_str with
  | none => ⟨0, 0, [], [], []⟩
  | some data =>
    { start_snapshot := data.start_snapshot
      end_snapshot := data.end_snapshot
      observed_snapshots := data.observed_snapshots
      missing_snapshots := data.missing_snapshots
      missing_reasons := data.missing_reasons.map (fun p => (Nat.ofDigits 10 p.1, p.2)) }

/-- `@dataclass StationCandidate` (lines 88-97). `location` is `(lat, lng)`.
The Python sets `snapshot_ids : Set[str]` and `snapshots : Set[int]` are
modelled as lists of their (distinct) elements; where a theorem depends on
set semantics it carries a `Nodup` hypothesis. -/
structure StationCandidate where
  name : String
  type : String
  location : Rat × Rat
  east_west : String
  snapshot_ids : List String
  snapshots : List Nat
  source_confidence : Rat
  deriving DecidableEq

/-- `StationCandidate.get_activity_period` (lines 99-125).
`observed_snapshots[0]` / `observed_snapshots[-1]` on the non-empty sorted
list are `headI` / `getLastD _ 0`. -/
def StationCandidate.get_activity_period (c : StationCandidate)
    (available_snapshots : List Nat) : ActivityPeriod :=
  if c.snapshots = [] then ⟨0, 0, [], [], []⟩
  else
    let observed_snapshots := pysorted c.snapshots
    let start_snapshot := observed_snapshots.headI
    let end_snapshot := observed_snapshots.getLastD 0
    let period_snapshots := available_snapshots.filter
      (fun s => start_snapshot ≤ s ∧ s ≤ end_snapshot)
    let missing_snapshots := period_snapshots.filter
      (fun s => s ∉ observed_snapshots)
    { start_snapshot := start_snapshot
      end_snapshot := end_snapshot
      observed_snapshots := observed_snapshots
      missing_snapshots := missing_snapshots
      missing_reasons := missing_snapshots.map (fun s => (s, "data_gap")) }

/-- `@dataclass LineCandidate` (lines 127-135). -/
structure LineCandidate where
  name : String
  type : String
  east_west : String
  snapshot_ids : List String
  snapshots : List Nat
  source_confidence : Rat
  deriving DecidableEq

/-- `LineCandidate.get_activity_period` (lines 137-163), textually identical
to the station version. -/
def LineCandidate.get_activity_period (c : LineCandidate)
    (available_snapshots : List Nat) : ActivityPeriod :=
  if c.snapshots = [] then ⟨0, 0, [], [], []⟩
  else
    let observed_snapshots := pysorted c.snapshots
    let start_snapshot := observed_snapshots.headI
    let end_snapshot := observed_snapshots.getLastD 0
    let period_snapshots := available_snapshots.filter
      (fun s => start_snapshot ≤ s ∧ s ≤ end_snapshot)
    let missing_snapshots := period_snapshots.filter
      (fun s => s ∉ observed_snapshots)
    { start_snapshot := start_snapshot
      end_snapshot := end_snapshot
      observed_snapshots := observed_snapshots
      missing_snapshots := missing_snapshots
      missing_reasons := missing_snapshots.map (fun s => (s, "data_gap")) }

example :
    (StationCandidate.get_activity_period
      ⟨"A", "u-bahn", (0, 0), "east", ["s1"], [1970, 1965], 1⟩
      [1960, 1965, 1970, 1975]).observed_snapshots = [1965, 1970] := by decide

example :
    (StationCandidate.get_activity_period
      ⟨"A", "u-bahn", (0, 0), "east", ["s1"], [1965, 1975], 1⟩
      [1960, 1965, 1970, 1975]).missing_snapshots = [1970] := by decide

/-- One snapshot-station row as grouped by `analyze_snapshot_stations`
(lines 232-244). Coordinates are Python floats, modelled as `Rat`. -/
structure SnapStation where
  stop_id : String
  name : String
  type : String
  latitude : Rat
  longitude : Rat
  east_west : String
  year : Nat
  source : String
  deriving DecidableEq

/-- The inner `manhattan_distance` of `_calculate_max_distance`
(lines 544-555).  `math.cos(math.radians t)` is abstracted as `cosr t`
(the code takes `abs` of it). -/
def manhattan_distance (cosr : Rat → Rat) (lat1 lon1 lat2 lon2 : Rat) : Rat :=
  let avg_lat := (lat1 + lat2) / 2
  let lat_diff_m := |lat2 - lat1| * 111000
  let lon_diff_m := |lon2 - lon1| * 111000 * |cosr avg_lat|
  lat_diff_m + lon_diff_m

/-- The pairwise distances enumerated by the double loop of
`_calculate_max_distance` (lines 557-563), in loop order (`i < j`). -/
def pairDists (cosr : Rat → Rat) : List (Rat × Rat) → List Rat
  | [] => []
  | p :: rest =>
    rest.map (fun q => manhattan_distance cosr p.1 p.2 q.1 q.2) ++ pairDists cosr rest

/-- `_calculate_max_distance` (lines 539-565). -/
def _calculate_max_distance (cosr : Rat → Rat) (locations : List (Rat × Rat)) : Rat :=
  if locations.length ≤ 1 then 0
  else (pairDists cosr locations).foldl max 0

/-- `_calculate_station_confidence` (lines 514-532). -/
def _calculate_station_confidence (cosr : Rat → Rat) (stations : List SnapStation) : Rat :=
  if stations.length ≤ 1 then 1
  else
    let locations := stations.map (fun s => (s.latitude, s.longitude))
    let max_distance := _calculate_max_distance cosr locations
    if max_distance ≤ 200 then 0.95
    else if max_distance ≤ 250 then 0.8
    else if max_distance ≤ 300 then 0.6
    else 0.3

/-- `_calculate_line_confidence` (lines 534-537). -/
def _calculate_line_confidence (lines : List (String × Nat)) : Rat :=
  if lines.length > 1 then 0.9 else 1

/-- Number of valid station ids not yet visited: the termination measure of
the DFS. -/
def unvisitedCount (valid visited : List String) : Nat :=
  (valid.filter (fun v => v ∉ visited)).length

theorem length_filter_mono {α : Type} {l : List α} {p q : α → Bool}
    (h : ∀ x ∈ l, p x = true → q x = true) :
    (l.filter p).length ≤ (l.filter q).length := by
  induction l with
  | nil => simp
  | cons a t ih =>
    have ht : ∀ x ∈ t, p x = true → q x = true := fun x hx => h x (List.mem_cons_of_mem a hx)
    by_cases hp : p a = true
    · rw [List.filter_cons_of_pos hp, List.filter_cons_of_pos (h a (List.mem_cons_self a t) hp)]
      simpa using ih ht
    · rw [List.filter_cons_of_neg (by simpa using hp)]
      by_cases hq : q a = true
      · rw [List.filter_cons_of_pos hq]
        exact (ih ht).trans (Nat.le_succ _)
      · rw [List.filter_cons_of_neg (by simpa using hq)]
        exact ih ht

theorem unvisitedCount_append_le (valid visited t : List String) :
    unvisitedCount valid (visited ++ t) ≤ unvisitedCount valid visited := by
  apply length_filter_mono
  intro x _ hx
  simp only [decide_eq_true_eq] at hx ⊢
  intro hmem
  exact hx (List.mem_append_left t hmem)

theorem unvisitedCount_lt (valid visited : List String) {s : String}
    (hs : s ∈ valid) (hnv : s ∉ visited) :
    unvisitedCount valid (visited ++ [s]) < unvisitedCount valid visited := by
  induction valid with
  | nil => cases hs
  | cons a t ih =>
    unfold unvisitedCount
    by_cases ha : a = s
    · subst ha
      rw [List.filter_cons_of_neg (by simp), List.filter_cons_of_pos (by simpa using hnv)]
      exact Nat.lt_succ_of_le (unvisitedCount_append_le t visited [a])
    · rcases List.mem_cons.mp hs with h | h
      · exact absurd h.symm ha
      · by_cases hav : a ∈ visited
        · rw [List.filter_cons_of_neg (by simp [hav]),
            List.filter_cons_of_neg (by simp [hav])]
          exact ih h
        · rw [List.filter_cons_of_pos (by simp [hav, ha]),
            List.filter_cons_of_pos (by simpa using hav)]
          exact Nat.succ_lt_succ (ih h)

/-- The DFS state `(visited, component)` is only ever extended, by the same
newly-visited vertices on both sides. -/
def DfsExtends (vc r : List String × List String) : Prop :=
  ∃ t, r.1 = vc.1 ++ t ∧ r.2 = vc.2 ++ t

/-- `_dfs_component` (lines 324-337), embedded as a worklist over the pending
recursive calls: `dfsGo adj valid (c :: cs) vc` performs the Python call
`_dfs_component(c, valid, adj, visited, component)` (whose guard returns
immediately when `c` is visited or invalid, and otherwise marks `c` visited,
adds it to the component and recurses on its neighbours) and then continues
with the remaining pending calls `cs`.  The result carries the proof that the
state only grew, which also drives termination. -/
def dfsGo (adj : String → List String) (valid : List String) :
    (pending : List String) → (vc : List String × List String) →
    { r : List String × List String // DfsExtends vc r }
  | [], vc => ⟨vc, [], by simp, by simp⟩
  | c :: cs, vc =>
    if h : c ∈ vc.1 ∨ c ∉ valid then
      let r := dfsGo adj valid cs vc
      ⟨r.val, r.property⟩
    else
      let r1 := dfsGo adj valid (adj c) (vc.1 ++ [c], vc.2 ++ [c])
      let r2 := dfsGo adj valid cs r1.val
      ⟨r2.val, by
        obtain ⟨t1, h11, h12⟩ := r1.property
        obtain ⟨t2, h21, h22⟩ := r2.property
        exact ⟨[c] ++ t1 ++ t2, by simp [h21, h11], by simp [h22, h12]⟩⟩
termination_by pending vc => (unvisitedCount valid vc.1, pending.length)
decreasing_by
  · exact Prod.Lex.right _ (Nat.lt_succ_self _)
  · push_neg at h
    exact Prod.Lex.left _ _ (unvisitedCount_lt valid vc.1 h.2 h.1)
  · push_neg at h
    apply Prod.Lex.left
    obtain ⟨t1, h11, _⟩ := r1.property
    calc unvisitedCount valid r1.val.1
        = unvisitedCount valid ((vc.1 ++ [c]) ++ t1) := by rw [h11]
      _ ≤ unvisitedCount valid (vc.1 ++ [c]) := unvisitedCount_append_le _ _ _
      _ < unvisitedCount valid vc.1 := unvisitedCount_lt valid vc.1 h.2 h.1

/-- `_find_connected_components` (lines 291-322).  Components are the
components' member lists in DFS visit order (the Python uses sets; claims
compare them by membership). -/
def _find_connected_components (station_ids : List String)
    (connected_stations : String → List String) : List (List String) :=
  if station_ids.length ≤ 1 then [station_ids]
  else
    let has_connections := station_ids.any (fun s =>
      station_ids.any (fun o => decide (o ≠ s ∧ o ∈ connected_stations s)))
    if has_connections = false then [station_ids]
    else
      (station_ids.foldl
        (fun (st : List String × List (List String)) sid =>
          if sid ∈ st.1 then st
          else
            let d := dfsGo connected_stations station_ids [sid] (st.1, [])
            (d.val.1, if d.val.2 ≠ [] then st.2 ++ [d.val.2] else st.2))
        ([], [])).2

/-- The per-group body of `analyze_snapshot_stations` (lines 249-286): split
one `(name, type, east_west)` station group into connected components and
build one `StationCandidate` per component, keyed by its core id. -/
def resolveStationGroup (cosr : Rat → Rat)
    (connected_stations : String → List String)
    (name transport_type east_west : String) (stations : List SnapStation) :
    List (String × StationCandidate) :=
  if stations.length = 0 then []
  else
    let station_ids := stations.map (·.stop_id)
    let connected_components := _find_connected_components station_ids connected_stations
    connected_components.enum.filterMap (fun ic =>
      let component_idx := ic.1
      let component_stations := ic.2
      let component_data := stations.filter (fun s => s.stop_id ∈ component_stations)
      if component_data.length = 0 then none
      else
        let avg_lat := (component_data.map (·.latitude)).sum / (component_data.length : Rat)
        let avg_lng := (component_data.map (·.longitude)).sum / (component_data.length : Rat)
        let suffix := if connected_components.length > 1 then "_" ++ toString component_idx else ""
        let core_id := "core_" ++ (name.replace " " "_").toLower ++ "_" ++ transport_type
          ++ "_" ++ east_west ++ suffix
        let confidence := _calculate_station_confidence cosr component_data
        some (core_id,
          { name := name
            type := transport_type
            location := (avg_lat, avg_lng)
            east_west := east_west
            snapshot_ids := (component_data.map (·.stop_id)).dedup
            snapshots := (component_data.map (·.year)).dedup
            source_confidence := confidence }))

/-- One snapshot-line row as grouped by `analyze_snapshot_lines`
(lines 364-372). -/
structure LineRec where
  line_id : String
  name : String
  type : String
  east_west : String
  year : Nat
  deriving DecidableEq

/-- Keys of the line-group dict: `(name, type, east_west)`. -/
abbrev LKey := String × String × String

/-- Python dict lookup `m[k]` / `m.get(k)` on an association list. -/
def dictGet {V : Type} (m : List (LKey × V)) (k : LKey) : Option V :=
  (m.find? (fun p => p.1 = k)).map (·.2)

/-- Python dict assignment `m[k] = v`: replace in place if the key exists,
otherwise append (dicts preserve insertion order). -/
def dictSet {V : Type} (m : List (LKey × V)) (k : LKey) (v : V) : List (LKey × V) :=
  if m.any (fun p => p.1 = k) then m.map (fun p => if p.1 = k then (k, v) else p)
  else m ++ [(k, v)]

/-- Python `m[k].extend(l)` on a dict of lists. -/
def dictExtend {V : Type} (m : List (LKey × List V)) (k : LKey) (l : List V) :
    List (LKey × List V) :=
  m.map (fun p => if p.1 = k then (p.1, p.2 ++ l) else p)

/-- `_determine_line_side` (lines 474-512).  The store round-trip
`MATCH (l:Line ...)-[:SERVES]->(s:Station) WHERE s.longitude IS NOT NULL
RETURN s.longitude` is modelled as `station_lons : line_id -> longitudes`. -/
def _determine_line_side (station_lons : String → List Rat)
    (lines : List LineRec) (dividing_longitude : Rat) : String :=
  let all_longitudes := lines.foldl (fun acc line => acc ++ station_lons line.line_id) []
  if all_longitudes = [] then "unified"
  else
    let avg_longitude := all_longitudes.sum / (all_longitudes.length : Rat)
    if avg_longitude > dividing_longitude then "east" else "west"

/-- The body of the per-unified-line loop of `_resolve_unified_lines`
(lines 430-469). -/
def processUnified (station_lons : String → List Rat)
    (resolved_groups : List (LKey × List LineRec)) (uk : LKey)
    (unified_lines : List LineRec) : List (LKey × List LineRec) :=
  let name := uk.1
  let transport_type := uk.2.1
  let east_key : LKey := (name, transport_type, "east")
  let west_key : LKey := (name, transport_type, "west")
  let has_east := (dictGet resolved_groups east_key).isSome
  let has_west := (dictGet resolved_groups west_key).isSome
  if has_east || has_west then
    let side := _determine_line_side station_lons unified_lines (13.4 : Rat)
    if side = "east" ∧ has_east then dictExtend resolved_groups east_key unified_lines
    else if side = "west" ∧ has_west then dictExtend resolved_groups west_key unified_lines
    else if side = "east" ∧ ¬ has_east then dictSet resolved_groups east_key unified_lines
    else if side = "west" ∧ ¬ has_west then dictSet resolved_groups west_key unified_lines
    else dictSet resolved_groups uk unified_lines
  else
    let side := _determine_line_side station_lons unified_lines (13.4 : Rat)
    dictSet resolved_groups (name, transport_type, side) unified_lines

/-- `_resolve_unified_lines` (lines 401-472). `BERLIN_DIVIDING_LONGITUDE`
is 13.4. -/
def _resolve_unified_lines (station_lons : String → List Rat)
    (line_groups : List (LKey × List LineRec)) : List (LKey × List LineRec) :=
  let resolved_groups := line_groups.filter (fun p => p.1.2.2 ≠ "unified")
  let unified_groups := line_groups.filter (fun p => p.1.2.2 = "unified")
  unified_groups.foldl (fun resolved p => processUnified station_lons resolved p.1 p.2)
    resolved_groups

/-- One row of the `SERVES` query of `_analyze_core_connections`
(lines 601-609): a line serves a station, both in the same year. -/
structure ServeRec where
  line_id : String
  station_id : String
  year : Nat
  stop_order : Nat
  deriving DecidableEq

/-- The value accumulated per `(core_line_id, core_station_id)` pair. -/
structure ConnInfo where
  overlapping_snapshots : List Nat
  strength : Rat
  deriving DecidableEq

/-- Python dict lookup on a string-keyed association list (used for the
reverse maps `snapshot_id -> core_id`). -/
def sdictGet {V : Type} (m : List (String × V)) (k : String) : Option V :=
  (m.find? (fun p => p.1 = k)).map (·.2)

/-- Python dict assignment on a string-keyed association list. -/
def sdictSet {V : Type} (m : List (String × V)) (k : String) (v : V) :
    List (String × V) :=
  if m.any (fun p => p.1 = k) then m.map (fun p => if p.1 = k then (k, v) else p)
  else m ++ [(k, v)]

/-- The reverse map `snapshot_id -> core_id` built by the nested loops of
`_analyze_core_connections` (lines 588-598); later assignments overwrite. -/
def snapshotToCore (ids : List (String × List String)) : List (String × String) :=
  ids.foldl (fun m p => p.2.foldl (fun m sid => sdictSet m sid p.1) m) []

/-- Appending one observation year to the nested-defaultdict accumulator of
`_analyze_core_connections` (lines 612-629), flattened to a map keyed by the
`(core_line_id, core_station_id)` pair. -/
def addConnYear (m : List ((String × String) × List Nat))
    (k : String × String) (year : Nat) : List ((String × String) × List Nat) :=
  if m.any (fun p => p.1 = k) then
    m.map (fun p => if p.1 = k then (p.1, p.2 ++ [year]) else p)
  else m ++ [(k, [year])]

/-- The `(core_line_id, core_station_id)` pair a serve record contributes to
(lines 617-626): both snapshot ids must map to a core id, and
`if core_line_id and core_station_id` is Python truthiness, i.e. present
*and* a non-empty string. -/
def serveTarget (snapshot_to_core_line snapshot_to_core_station : List (String × String))
    (r : ServeRec) : Option (String × String) :=
  match sdictGet snapshot_to_core_line r.line_id,
        sdictGet snapshot_to_core_station r.station_id with
  | some core_line_id, some core_station_id =>
    if core_line_id ≠ "" ∧ core_station_id ≠ "" then
      some (core_line_id, core_station_id)
    else none
  | _, _ => none

/-- Processing one serve record of the accumulation loop (lines 617-629). -/
def connStep (snapshot_to_core_line snapshot_to_core_station : List (String × String))
    (m : List ((String × String) × List Nat)) (r : ServeRec) :
    List ((String × String) × List Nat) :=
  match serveTarget snapshot_to_core_line snapshot_to_core_station r with
  | some k => addConnYear m k r.year
  | none => m

/-- `_analyze_core_connections` (lines 575-641).  The nested
`Dict[core_line_id, Dict[core_station_id, info]]` is flattened to a map keyed
by the pair.  Note the final strength (lines 631-638) divides the *raw*
number of accumulated observations (`total_years`, counted before the
`sorted(set(...))` dedup) by the number of available snapshots. -/
def _analyze_core_connections
    (station_candidates : List (String × StationCandidate))
    (line_candidates : List (String × LineCandidate))
    (available_snapshots : List Nat)
    (serves : List ServeRec) :
    List ((String × String) × ConnInfo) :=
  let snapshot_to_core_station :=
    snapshotToCore (station_candidates.map (fun p => (p.1, p.2.snapshot_ids)))
  let snapshot_to_core_line :=
    snapshotToCore (line_candidates.map (fun p => (p.1, p.2.snapshot_ids)))
  let core_connections :=
    serves.foldl (connStep snapshot_to_core_line snapshot_to_core_station) []
  core_connections.map (fun p =>
    (p.1, { overlapping_snapshots := pysorted p.2.dedup
            strength := (p.2.length : Rat) / (available_snapshots.length : Rat) }))

/-- `_merge_activity_periods` (lines 822-862).  The `current_period` argument
is the dict form of the stored period (`from_json_string(...).to_dict()` at
both call sites, so the `if not current_period` falsy-dict guard and the
`.get` defaults never fire, and the `int(k)` key normalisation is the
identity).  The set union `current_observed | new_observed` is modelled as
`(current ++ new).dedup`. -/
def _merge_activity_periods (available_snapshots : List Nat)
    (current_period : PeriodDict) (new_period : ActivityPeriod) : ActivityPeriod :=
  let current_start := current_period.start_snapshot
  let current_end := current_period.end_snapshot
  let current_reasons := current_period.missing_reasons
  let merged_start := min current_start new_period.start_snapshot
  let merged_end := max current_end new_period.end_snapshot
  let merged_observed :=
    (current_period.observed_snapshots ++ new_period.observed_snapshots).dedup
  let all_snapshots_in_period := available_snapshots.filter
    (fun s => merged_start ≤ s ∧ s ≤ merged_end)
  let merged_missing := all_snapshots_in_period.filter (fun s => s ∉ merged_observed)
  let merged_reasons := new_period.missing_reasons.foldl
    (fun acc p => if (reasonsFind acc p.1).isSome then acc else acc ++ [p])
    current_reasons
  { start_snapshot := merged_start
    end_snapshot := merged_end
    observed_snapshots := pysorted merged_observed
    missing_snapshots := merged_missing
    missing_reasons := merged_reasons }

/-- A persisted `CoreStation` node (properties set by `populate_core_stations`,
lines 759-799).  `activity_period` holds the serialized JSON (`none` models a
node whose property is null/empty). -/
structure CoreStationNode where
  core_id : String
  name : String
  type : String
  latitude : Rat
  longitude : Rat
  east_west : String
  activity_period : Option PeriodJson
  source_confidence : Rat
  created_date : Nat
  updated_date : Option Nat
  source : String
  deriving DecidableEq

/-- A persisted `CoreLine` node (properties set by `populate_core_lines`,
lines 904-936). -/
structure CoreLineNode where
  core_line_id : String
  name : String
  type : String
  east_west : String
  activity_period : Option PeriodJson
  source_confidence : Rat
  created_date : Nat
  updated_date : Option Nat
  source : String
  deriving DecidableEq

/-- One `HAS_SNAPSHOT` relationship together with its property map. -/
structure SnapshotEdge where
  core_id : String
  snapshot_id : String
  created_date : Nat
  confidence : Rat
  deriving DecidableEq

/-- The slice of the Neo4j store this script reads and writes: Core nodes,
the ids of the snapshot `Station`/`Line` nodes (written upstream, only
matched here), and the `HAS_SNAPSHOT` edge lists. -/
structure Store where
  coreStations : List CoreStationNode
  coreLines : List CoreLineNode
  stations : List String
  lines : List String
  stationSnapshotEdges : List SnapshotEdge
  lineSnapshotEdges : List SnapshotEdge
  deriving DecidableEq

/-- The `MERGE (cs)-[:HAS_SNAPSHOT {created_date: datetime(), confidence:
$confidence}]->(s)` loop of `populate_core_stations` (lines 804-816).  The
property map inside a Cypher `MERGE` pattern is part of the match criteria:
the edge is reused only when one with the same endpoints AND the same
`created_date`/`confidence` values already exists, otherwise a new relationship
is created.  `datetime()` is the run timestamp `now`. -/
def linkStationSnapshots (core_id : String) (snapshot_ids : List String)
    (confidence : Rat) (now : Nat) (st : Store) : Store :=
  snapshot_ids.foldl (fun st2 snapshot_id =>
    if (st2.coreStations.any (fun n => n.core_id = core_id)) ∧ snapshot_id ∈ st2.stations then
      if (⟨core_id, snapshot_id, now, confidence⟩ : SnapshotEdge) ∈ st2.stationSnapshotEdges
      then st2
      else { st2 with stationSnapshotEdges :=
              st2.stationSnapshotEdges ++ [⟨core_id, snapshot_id, now, confidence⟩] }
    else st2) st

/-- The per-candidate body of `populate_core_stations` (lines 739-817):
look up the existing node, merge-or-create, then link snapshot edges. -/
def populateStationStep (available_snapshots : List Nat) (now : Nat)
    (st : Store) (cand : String × StationCandidate) : Store :=
  let core_id := cand.1
  let c := cand.2
  let existing_record := st.coreStations.find? (fun n => n.core_id = core_id)
  let activity_period := c.get_activity_period available_snapshots
  let st' :=
    match existing_record with
    | some node =>
      let updated_period :=
        match node.activity_period with
        | some current_period_json =>
          _merge_activity_periods available_snapshots
            (ActivityPeriod.from_json_string (some current_period_json)).to_dict
            activity_period
        | none => activity_period
      { st with coreStations := st.coreStations.map (fun n =>
          if n.core_id = core_id then
            { n with
              activity_period := some updated_period.to_json_string
              source_confidence := c.source_confidence
              updated_date := some now
              latitude := c.location.1
              longitude := c.location.2 }
          else n) }
    | none =>
      { st with coreStations := st.coreStations ++
          [{ core_id := core_id
             name := c.name
             type := c.type
             latitude := c.location.1
             longitude := c.location.2
             east_west := c.east_west
             activity_period := some activity_period.to_json_string
             source_confidence := c.source_confidence
             created_date := now
             updated_date := none
             source := "core_entity_resolver" }] }
  linkStationSnapshots core_id c.snapshot_ids c.source_confidence now st'

/-- `populate_core_stations` (lines 718-820), non-dry-run path: fold the
per-candidate step over the candidate dict. -/
def populate_core_stations (available_snapshots : List Nat) (now : Nat)
    (candidates : List (String × StationCandidate)) (st : Store) : Store :=
  candidates.foldl (populateStationStep available_snapshots now) st

/-- The `MERGE (cl)-[:HAS_SNAPSHOT {created_date: datetime(), confidence:
$confidence}]->(l)` loop of `populate_core_lines` (lines 942-954), with the
same pattern-matching `MERGE` semantics as the station version. -/
def linkLineSnapshots (core_id : String) (snapshot_ids : List String)
    (confidence : Rat) (now : Nat) (st : Store) : Store :=
  snapshot_ids.foldl (fun st2 snapshot_id =>
    if (st2.coreLines.any (fun n => n.core_line_id = core_id)) ∧ snapshot_id ∈ st2.lines then
      if (⟨core_id, snapshot_id, now, confidence⟩ : SnapshotEdge) ∈ st2.lineSnapshotEdges
      then st2
      else { st2 with lineSnapshotEdges :=
              st2.lineSnapshotEdges ++ [⟨core_id, snapshot_id, now, confidence⟩] }
    else st2) st

/-- The per-candidate body of `populate_core_lines` (lines 885-954). -/
def populateLineStep (available_snapshots : List Nat) (now : Nat)
    (st : Store) (cand : String × LineCandidate) : Store :=
  let core_id := cand.1
  let c := cand.2
  let existing_record := st.coreLines.find? (fun n => n.core_line_id = core_id)
  let activity_period := c.get_activity_period available_snapshots
  let st' :=
    match existing_record with
    | some node =>
      let updated_period :=
        match node.activity_period with
        | some current_period_json =>
          _merge_activity_periods available_snapshots
            (ActivityPeriod.from_json_string (some current_period_json)).to_dict
            activity_period
        | none => activity_period
      { st with coreLines := st.coreLines.map (fun n =>
          if n.core_line_id = core_id then
            { n with
              activity_period := some updated_period.to_json_string
              source_confidence := c.source_confidence
              updated_date := some now }
          else n) }
    | none =>
      { st with coreLines := st.coreLines ++
          [{ core_line_id := core_id
             name := c.name
             type := c.type
             east_west := c.east_west
             activity_period := some activity_period.to_json_string
             source_confidence := c.source_confidence
             created_date := now
             updated_date := none
             source := "core_entity_resolver" }] }
  linkLineSnapshots core_id c.snapshot_ids c.source_confidence now st'

/-- `populate_core_lines` (lines 864-957), non-dry-run path. -/
def populate_core_lines (available_snapshots : List Nat) (now : Nat)
    (candidates : List (String × LineCandidate)) (st : Store) : Store :=
  candidates.foldl (populateLineStep available_snapshots now) st

/-! ## Helper lemmas on `pysorted`, `reasonsFind` and sorted lists -/

theorem pysorted_sorted (l : List Nat) : (pysorted l).Sorted (· ≤ ·) :=
  List.sorted_insertionSort _ l

theorem pysorted_perm (l : List Nat) : List.Perm (pysorted l) l :=
  List.perm_insertionSort _ l

theorem mem_pysorted {y : Nat} {l : List Nat} : y ∈ pysorted l ↔ y ∈ l :=
  (pysorted_perm l).mem_iff

theorem pysorted_eq_self {l : List Nat} (h : l.Sorted (· ≤ ·)) : pysorted l = l :=
  h.insertionSort_eq

theorem sorted_headI_mem {l : List Nat} (h : l ≠ []) : l.headI ∈ l := by
  cases l with
  | nil => exact absurd rfl h
  | cons a t => exact List.mem_cons_self a t

theorem sorted_headI_le {l : List Nat} (hs : l.Sorted (· ≤ ·)) :
    ∀ y ∈ l, l.headI ≤ y := by
  cases l with
  | nil => intro y hy; cases hy
  | cons a t =>
    intro y hy
    rcases List.mem_cons.mp hy with rfl | hy
    · exact le_refl _
    · exact List.rel_of_sorted_cons hs y hy

theorem getLastD_mem {l : List Nat} (h : l ≠ []) : l.getLastD 0 ∈ l := by
  induction l with
  | nil => exact absurd rfl h
  | cons a t ih =>
    cases t with
    | nil => simp
    | cons b u =>
      rw [List.getLastD_eq_getLast?, List.getLast?_cons_cons, ← List.getLastD_eq_getLast?]
      exact List.mem_cons_of_mem a (ih (by simp))

theorem sorted_le_getLastD {l : List Nat} (hs : l.Sorted (· ≤ ·)) :
    ∀ y ∈ l, y ≤ l.getLastD 0 := by
  induction l with
  | nil => intro y hy; cases hy
  | cons a t ih =>
    intro y hy
    cases t with
    | nil =>
      rcases List.mem_singleton.mp hy with rfl
      simp
    | cons b u =>
      rw [List.getLastD_eq_getLast?, List.getLast?_cons_cons, ← List.getLastD_eq_getLast?]
      rcases List.mem_cons.mp hy with rfl | hy
      · exact (List.rel_of_sorted_cons hs _ (getLastD_mem (by simp)))
      · exact ih hs.of_cons y hy

theorem reasonsFind_map_const {l : List Nat} {r : String} {y : Nat} (hy : y ∈ l) :
    reasonsFind (l.map (fun s => (s, r))) y = some r := by
  induction l with
  | nil => cases hy
  | cons a t ih =>
    rcases List.mem_cons.mp hy with rfl | hy
    · simp [reasonsFind]
    · by_cases ha : a = y
      · subst ha; simp [reasonsFind]
      · simpa [reasonsFind, List.find?_cons_of_neg, ha] using ih hy

theorem reasonsFind_append (l₁ l₂ : List (Nat × String)) (y : Nat) :
    reasonsFind (l₁ ++ l₂) y = (reasonsFind l₁ y).or (reasonsFind l₂ y) := by
  induction l₁ with
  | nil => simp [reasonsFind]
  | cons a t ih =>
    by_cases ha : a.1 = y
    · simp [reasonsFind, List.find?_cons_of_pos, ha]
    · simpa [reasonsFind, List.find?_cons_of_neg, ha] using ih

theorem reasonsFind_cons (a : Nat × String) (t : List (Nat × String)) (y : Nat) :
    reasonsFind (a :: t) y = (reasonsFind [a] y).or (reasonsFind t y) :=
  reasonsFind_append [a] t y

/-- The reason-merging fold of `_merge_activity_periods`: existing annotations
always win, incoming ones fill the holes. -/
theorem reasonsFind_mergeFold (inc : List (Nat × String)) :
    ∀ (cur : List (Nat × String)) (y : Nat),
    reasonsFind (inc.foldl
      (fun acc p => if (reasonsFind acc p.1).isSome then acc else acc ++ [p]) cur) y =
    (reasonsFind cur y).or (reasonsFind inc y) := by
  induction inc with
  | nil =>
    intro cur y
    simp [reasonsFind, Option.or_none]
  | cons p rest ih =>
    intro cur y
    rw [List.foldl_cons]
    by_cases hp : (reasonsFind cur p.1).isSome
    · rw [if_pos hp, ih cur y, reasonsFind_cons]
      rcases hcy : reasonsFind cur y with _ | r
      · simp only [Option.none_or]
        have hpy : p.1 ≠ y := by
          intro h
          rw [h, hcy] at hp
          simp at hp
        simp [reasonsFind, List.find?_cons_of_neg, hpy]
      · simp
    · rw [if_neg hp, ih (cur ++ [p]) y, reasonsFind_append, Option.or_assoc,
        ← reasonsFind_cons]

/-! ## C2: activity-period computation invariant -/

/-- C2.  For every candidate with a non-empty set of observed snapshot years
and every global year catalog, `get_activity_period` returns:
`start_snapshot` = min of the observed years, `end_snapshot` = max,
`observed_snapshots` with exactly the observed years, `missing_snapshots` =
the catalog years in `[start, end]` not observed (in particular disjoint from
the observed years), every missing year mapped to `"data_gap"`; an empty
observed set yields the degenerate zero period. -/
theorem c2_get_activity_period_invariant (c : StationCandidate) (avail : List Nat) :
    (c.snapshots = [] →
      c.get_activity_period avail = ⟨0, 0, [], [], []⟩) ∧
    (c.snapshots ≠ [] →
      ((c.get_activity_period avail).start_snapshot ∈ c.snapshots ∧
        ∀ y ∈ c.snapshots, (c.get_activity_period avail).start_snapshot ≤ y) ∧
      ((c.get_activity_period avail).end_snapshot ∈ c.snapshots ∧
        ∀ y ∈ c.snapshots, y ≤ (c.get_activity_period avail).end_snapshot) ∧
      (∀ y, y ∈ (c.get_activity_period avail).observed_snapshots ↔ y ∈ c.snapshots) ∧
      (∀ y, y ∈ (c.get_activity_period avail).missing_snapshots ↔
        y ∈ avail ∧ (c.get_activity_period avail).start_snapshot ≤ y ∧
          y ≤ (c.get_activity_period avail).end_snapshot ∧ y ∉ c.snapshots) ∧
      (∀ y ∈ (c.get_activity_period avail).missing_snapshots,
        y ∉ (c.get_activity_period avail).observed_snapshots) ∧
      (∀ y ∈ (c.get_activity_period avail).missing_snapshots,
        reasonsFind (c.get_activity_period avail).missing_reasons y = some "data_gap")) := by
  constructor
  · intro h
    simp [StationCandidate.get_activity_period, h]
  · intro h
    have hobs : pysorted c.snapshots ≠ [] := by
      intro h0
      apply h
      have hp := pysorted_perm c.snapshots
      rw [h0] at hp
      exact hp.symm.eq_nil
    have hP : c.get_activity_period avail =
        ⟨(pysorted c.snapshots).headI, (pysorted c.snapshots).getLastD 0,
          pysorted c.snapshots,
          (avail.filter (fun s => (pysorted c.snapshots).headI ≤ s ∧
              s ≤ (pysorted c.snapshots).getLastD 0)).filter
            (fun s => s ∉ pysorted c.snapshots),
          ((avail.filter (fun s => (pysorted c.snapshots).headI ≤ s ∧
              s ≤ (pysorted c.snapshots).getLastD 0)).filter
            (fun s => s ∉ pysorted c.snapshots)).map (fun s => (s, "data_gap"))⟩ := by
      simp only [StationCandidate.get_activity_period, if_neg h]
    rw [hP]
    refine ⟨⟨?_, ?_⟩, ⟨?_, ?_⟩, ?_, ?_, ?_, ?_⟩
    · exact mem_pysorted.mp (sorted_headI_mem hobs)
    · intro y hy
      exact sorted_headI_le (pysorted_sorted _) y (mem_pysorted.mpr hy)
    · exact mem_pysorted.mp (getLastD_mem hobs)
    · intro y hy
      exact sorted_le_getLastD (pysorted_sorted _) y (mem_pysorted.mpr hy)
    · intro y
      exact mem_pysorted
    · intro y
      simp [List.mem_filter, mem_pysorted]
      tauto
    · intro y hy
      simp only [List.mem_filter, decide_eq_true_eq] at hy
      exact hy.2
    · intro y hy
      exact reasonsFind_map_const hy

/-- Concrete inputs for witnesses: the spec's Alexanderplatz scenario. -/
def sampleAvail : List Nat := [1960, 1965, 1970, 1975]

def c2cand : StationCandidate :=
  ⟨"Alexanderplatz", "u-bahn", (52521/1000, 13411/1000), "east",
    ["s1", "s2"], [1970, 1965], 0.95⟩

def c2candEmpty : StationCandidate :=
  ⟨"Ghost", "tram", (0, 0), "west", [], [], 1⟩

theorem c2_get_activity_period_invariant_witness :
    ((c2cand.get_activity_period sampleAvail).start_snapshot ∈ c2cand.snapshots ∧
      ∀ y ∈ c2cand.snapshots,
        (c2cand.get_activity_period sampleAvail).start_snapshot ≤ y) ∧
    c2candEmpty.get_activity_period sampleAvail = ⟨0, 0, [], [], []⟩ :=
  ⟨((c2_get_activity_period_invariant c2cand sampleAvail).2 (by decide)).1,
    (c2_get_activity_period_invariant c2candEmpty sampleAvail).1 rfl⟩

/-! ## C3: merge of activity periods -/

/-- C3.  Merging an incoming period `B` into the stored dict form of an
existing period `A`: start = min of both starts, end = max of both ends,
observed = union of both observed sets (A's observed years never shrink),
missing = the catalog years in the merged span not in the merged observed
set, and A's reason annotations survive unchanged while B's reasons are
taken only for years A had not annotated. -/
theorem c3_merge_activity_periods (avail : List Nat) (A B : ActivityPeriod) :
    (_merge_activity_periods avail A.to_dict B).start_snapshot =
      min A.start_snapshot B.start_snapshot ∧
    (_merge_activity_periods avail A.to_dict B).end_snapshot =
      max A.end_snapshot B.end_snapshot ∧
    (∀ y, y ∈ (_merge_activity_periods avail A.to_dict B).observed_snapshots ↔
      y ∈ A.observed_snapshots ∨ y ∈ B.observed_snapshots) ∧
    (∀ y, y ∈ (_merge_activity_periods avail A.to_dict B).missing_snapshots ↔
      y ∈ avail ∧ min A.start_snapshot B.start_snapshot ≤ y ∧
        y ≤ max A.end_snapshot B.end_snapshot ∧
        ¬(y ∈ A.observed_snapshots ∨ y ∈ B.observed_snapshots)) ∧
    (∀ y r, reasonsFind A.missing_reasons y = some r →
      reasonsFind (_merge_activity_periods avail A.to_dict B).missing_reasons y = some r) ∧
    (∀ y, reasonsFind A.missing_reasons y = none →
      reasonsFind (_merge_activity_periods avail A.to_dict B).missing_reasons y =
        reasonsFind B.missing_reasons y) := by
  have hreasons : ∀ y, reasonsFind (_merge_activity_periods avail A.to_dict B).missing_reasons y =
      (reasonsFind A.missing_reasons y).or (reasonsFind B.missing_reasons y) := by
    intro y
    simp only [_merge_activity_periods, ActivityPeriod.to_dict]
    exact reasonsFind_mergeFold B.missing_reasons A.missing_reasons y
  refine ⟨rfl, rfl, ?_, ?_, ?_, ?_⟩
  · intro y
    simp only [_merge_activity_periods, ActivityPeriod.to_dict]
    simp [mem_pysorted, List.mem_dedup]
  · intro y
    simp only [_merge_activity_periods, ActivityPeriod.to_dict]
    simp [List.mem_filter, List.mem_dedup, mem_pysorted, and_assoc]
    tauto
  · intro y r h
    rw [hreasons y, h, Option.or_some]
  · intro y h
    rw [hreasons y, h, Option.none_or]

def c3A : ActivityPeriod :=
  ⟨1960, 1970, [1960, 1970], [1965], [(1965, "closure")]⟩

def c3B : ActivityPeriod :=
  ⟨1965, 1975, [1965, 1975], [1970], [(1965, "data_gap"), (1970, "data_gap")]⟩

theorem c3_merge_activity_periods_witness :
    reasonsFind (_merge_activity_periods sampleAvail c3A.to_dict c3B).missing_reasons 1965 =
      some "closure" ∧
    reasonsFind (_merge_activity_periods sampleAvail c3A.to_dict c3B).missing_reasons 1970 =
      reasonsFind c3B.missing_reasons 1970 :=
  ⟨(c3_merge_activity_periods sampleAvail c3A c3B).2.2.2.2.1 1965 "closure" (by decide),
    (c3_merge_activity_periods sampleAvail c3A c3B).2.2.2.2.2 1970 (by decide)⟩

/-! ## C8: serialization round-trip -/

theorem map_digits_roundtrip (l : List (Nat × String)) :
    l.map ((fun p => (Nat.ofDigits 10 p.1, p.2)) ∘ fun p => (Nat.digits 10 p.1, p.2)) = l := by
  induction l with
  | nil => rfl
  | cons q t ih => simp [Function.comp, Nat.ofDigits_digits, ih]

/-- C8.  Serialization round-trips: for a period whose observed and missing
lists are sorted, `from_json_string (to_json_string p)` restores all five
stored fields (integer reason keys included), and a falsy/absent stored
value deserializes to the zero period instead of failing. -/
theorem c8_serialization_roundtrip (p : ActivityPeriod)
    (h1 : p.observed_snapshots.Sorted (· ≤ ·))
    (h2 : p.missing_snapshots.Sorted (· ≤ ·)) :
    ActivityPeriod.from_json_string (some p.to_json_string) = p ∧
    ActivityPeriod.from_json_string none = ⟨0, 0, [], [], []⟩ := by
  constructor
  · obtain ⟨s, e, obs, miss, reas⟩ := p
    simp only [ActivityPeriod.from_json_string, ActivityPeriod.to_json_string,
      ActivityPeriod.to_dict, PeriodDict.dumps, List.map_map, ActivityPeriod.mk.injEq]
    exact ⟨trivial, trivial, pysorted_eq_self h1, pysorted_eq_self h2, map_digits_roundtrip reas⟩
  · rfl

def c8p : ActivityPeriod :=
  ⟨1960, 1975, [1960, 1975], [1965, 1970], [(1965, "data_gap"), (1970, "closure")]⟩

theorem c8_serialization_roundtrip_witness :
    ActivityPeriod.from_json_string (some c8p.to_json_string) = c8p ∧
    ActivityPeriod.from_json_string none = ⟨0, 0, [], [], []⟩ :=
  c8_serialization_roundtrip c8p (by decide) (by decide)

/-! ## C4: station confidence from maximum pairwise distance -/

theorem pairDists_mem {cosr : Rat → Rat} {locs : List (Rat × Rat)} {d : Rat}
    (hd : d ∈ pairDists cosr locs) :
    ∃ p ∈ locs, ∃ q ∈ locs, d = manhattan_distance cosr p.1 p.2 q.1 q.2 := by
  induction locs with
  | nil => cases hd
  | cons p rest ih =>
    rcases List.mem_append.mp hd with h | h
    · obtain ⟨q, hq, hdq⟩ := List.mem_map.mp h
      exact ⟨p, List.mem_cons_self _ _, q, List.mem_cons_of_mem _ hq, hdq.symm⟩
    · obtain ⟨a, ha, b, hb, hab⟩ := ih h
      exact ⟨a, List.mem_cons_of_mem _ ha, b, List.mem_cons_of_mem _ hb, hab⟩

theorem foldl_max_of_le {l : List Rat} {a : Rat} (h : ∀ x ∈ l, x ≤ a) :
    l.foldl max a = a := by
  induction l generalizing a with
  | nil => rfl
  | cons x t ih =>
    rw [List.foldl_cons, max_eq_left (h x (List.mem_cons_self x t))]
    exact ih (fun y hy => h y (List.mem_cons_of_mem x hy))

/-- C4.  Station confidence is determined by the maximum pairwise Manhattan
distance (in meters, `|dlat| * 111000 + |dlon| * 111000 * |cos(mean lat)|`):
a single-member component yields 1.0, max distance <= 200m yields 0.95,
<= 250m yields 0.8, <= 300m yields 0.6, larger yields 0.3; in particular
three members at mutual distances 100m, 100m, 280m yield 0.6 and members at
identical coordinates yield 0.95. -/
theorem c4_station_confidence_thresholds (cosr : Rat → Rat) (stations : List SnapStation) :
    (stations.length ≤ 1 → _calculate_station_confidence cosr stations = 1) ∧
    (1 < stations.length →
      (_calculate_max_distance cosr
          (stations.map (fun s => (s.latitude, s.longitude))) ≤ 200 →
        _calculate_station_confidence cosr stations = 0.95) ∧
      (¬ _calculate_max_distance cosr
          (stations.map (fun s => (s.latitude, s.longitude))) ≤ 200 →
        _calculate_max_distance cosr
          (stations.map (fun s => (s.latitude, s.longitude))) ≤ 250 →
        _calculate_station_confidence cosr stations = 0.8) ∧
      (¬ _calculate_max_distance cosr
          (stations.map (fun s => (s.latitude, s.longitude))) ≤ 250 →
        _calculate_max_distance cosr
          (stations.map (fun s => (s.latitude, s.longitude))) ≤ 300 →
        _calculate_station_confidence cosr stations = 0.6) ∧
      (¬ _calculate_max_distance cosr
          (stations.map (fun s => (s.latitude, s.longitude))) ≤ 300 →
        _calculate_station_confidence cosr stations = 0.3)) ∧
    (1 < stations.length →
      (∀ s ∈ stations, ∀ t ∈ stations,
        s.latitude = t.latitude ∧ s.longitude = t.longitude) →
      _calculate_station_confidence cosr stations = 0.95) ∧
    (∀ s1 s2 s3 : SnapStation,
      manhattan_distance cosr s1.latitude s1.longitude s2.latitude s2.longitude = 100 →
      manhattan_distance cosr s1.latitude s1.longitude s3.latitude s3.longitude = 100 →
      manhattan_distance cosr s2.latitude s2.longitude s3.latitude s3.longitude = 280 →
      _calculate_station_confidence cosr [s1, s2, s3] = 0.6) := by
  refine ⟨?_, ?_, ?_, ?_⟩
  · intro h
    simp [_calculate_station_confidence, h]
  · intro h
    have h' : ¬ stations.length ≤ 1 := by omega
    refine ⟨?_, ?_, ?_, ?_⟩ <;> intro hm
    · simp [_calculate_station_confidence, h', hm]
    · intro hm2
      simp [_calculate_station_confidence, h', hm, hm2]
    · intro hm2
      have : ¬ _calculate_max_distance cosr
          (stations.map (fun s => (s.latitude, s.longitude))) ≤ 200 := by
        intro hc
        exact hm (hc.trans (by norm_num))
      simp [_calculate_station_confidence, h', this, hm, hm2]
    · have h250 : ¬ _calculate_max_distance cosr
          (stations.map (fun s => (s.latitude, s.longitude))) ≤ 250 := by
        intro hc
        exact hm (hc.trans (by norm_num))
      have h200 : ¬ _calculate_max_distance cosr
          (stations.map (fun s => (s.latitude, s.longitude))) ≤ 200 := by
        intro hc
        exact h250 (hc.trans (by norm_num))
      simp [_calculate_station_confidence, h', h200, h250, hm]
  · intro h hsame
    have h' : ¬ stations.length ≤ 1 := by omega
    have hzero : _calculate_max_distance cosr
        (stations.map (fun s => (s.latitude, s.longitude))) = 0 := by
      have hlen : ¬ (stations.map (fun s => (s.latitude, s.longitude))).length ≤ 1 := by
        simpa using h'
      rw [_calculate_max_distance, if_neg hlen]
      apply foldl_max_of_le
      intro x hx
      obtain ⟨p, hp, q, hq, hpq⟩ := pairDists_mem hx
      obtain ⟨sp, hsp, hspe⟩ := List.mem_map.mp hp
      obtain ⟨sq, hsq, hsqe⟩ := List.mem_map.mp hq
      obtain ⟨hlat, hlon⟩ := hsame sp hsp sq hsq
      rw [hpq, ← hspe, ← hsqe]
      simp [manhattan_distance, hlat, hlon]
    simp [_calculate_station_confidence, h', hzero]
  · intro s1 s2 s3 h12 h13 h23
    have hmax : _calculate_max_distance cosr
        ([s1, s2, s3].map (fun s => (s.latitude, s.longitude))) = 280 := by
      simp only [_calculate_max_distance, List.map, pairDists, List.length_cons]
      rw [if_neg (by norm_num)]
      simp only [List.map, List.append_nil, List.cons_append, List.nil_append, List.foldl_cons,
        List.foldl_nil]
      rw [h12, h13, h23]
      norm_num
    have h' : ¬ ([s1, s2, s3] : List SnapStation).length ≤ 1 := by norm_num
    simp only [_calculate_station_confidence, if_neg h', hmax]
    norm_num

def c4cosr : Rat → Rat :=
  fun a => if a = 1/4440 then 50/111000 else if a = 3/4440 then 230/111000 else 0

def c4s1 : SnapStation := ⟨"s1", "X", "tram", 0, 0, "east", 1960, "src"⟩
def c4s2 : SnapStation := ⟨"s2", "X", "tram", 1/2220, 1, "east", 1965, "src"⟩
def c4s3 : SnapStation := ⟨"s3", "X", "tram", 2/2220, 0, "east", 1970, "src"⟩

theorem c4_station_confidence_thresholds_witness :
    _calculate_station_confidence c4cosr [c4s1] = 1 ∧
    _calculate_station_confidence c4cosr [c4s1, c4s1] = 0.95 ∧
    _calculate_station_confidence c4cosr [c4s1, c4s2, c4s3] = 0.6 :=
  ⟨(c4_station_confidence_thresholds c4cosr [c4s1]).1 (by norm_num),
    (c4_station_confidence_thresholds c4cosr [c4s1, c4s1]).2.2.1 (by norm_num)
      (by intro s hs t ht; fin_cases hs <;> fin_cases ht <;> exact ⟨rfl, rfl⟩),
    (c4_station_confidence_thresholds c4cosr [c4s1]).2.2.2 c4s1 c4s2 c4s3
      (by norm_num [manhattan_distance, c4cosr, c4s1, c4s2, c4s3, abs_of_nonneg])
      (by norm_num [manhattan_distance, c4cosr, c4s1, c4s2, c4s3, abs_of_nonneg])
      (by norm_num [manhattan_distance, c4cosr, c4s1, c4s2, c4s3, abs_of_nonneg])⟩

/-! ## C5: connection strength -/

/-- Lookup in the flattened connection accumulator. -/
def pairFind (m : List ((String × String) × List Nat)) (k : String × String) :
    Option (List Nat) :=
  (m.find? (fun p => p.1 = k)).map (·.2)

theorem find?_or_append {α : Type} (p : α → Bool) (l₁ l₂ : List α) :
    (l₁ ++ l₂).find? p = (l₁.find? p).or (l₂.find? p) := by
  induction l₁ with
  | nil => simp
  | cons a t ih =>
    by_cases ha : p a
    · simp [List.find?_cons_of_pos, ha]
    · simpa [List.find?_cons_of_neg, ha] using ih

theorem find?_map_keyfix {K V : Type} [DecidableEq K] (m : List (K × V)) (k : K)
    (f : K × V → K × V) (hf : ∀ p, (f p).1 = p.1) :
    (m.map f).find? (fun p => p.1 = k) = (m.find? (fun p => p.1 = k)).map f := by
  induction m with
  | nil => rfl
  | cons a t ih =>
    by_cases ha : a.1 = k
    · rw [List.map_cons, List.find?_cons_of_pos _ (by simpa [hf] using ha),
        List.find?_cons_of_pos _ (by simpa using ha)]
      rfl
    · rw [List.map_cons, List.find?_cons_of_neg _ (by simpa [hf] using ha),
        List.find?_cons_of_neg _ (by simpa using ha)]
      exact ih

theorem pairFind_addConnYear_self (m : List ((String × String) × List Nat))
    (k : String × String) (y : Nat) :
    pairFind (addConnYear m k y) k = some ((pairFind m k).getD [] ++ [y]) := by
  unfold addConnYear
  by_cases hany : m.any (fun p => p.1 = k)
  · rw [if_pos hany]
    have hsome : (m.find? (fun p => p.1 = k)).isSome := by
      rw [List.find?_isSome]
      rcases List.any_eq_true.mp hany with ⟨x, hx, hxk⟩
      exact ⟨x, hx, hxk⟩
    obtain ⟨p0, hfind⟩ := Option.isSome_iff_exists.mp hsome
    have hp0 : p0.1 = k := by simpa using List.find?_some hfind
    unfold pairFind
    rw [find?_map_keyfix m k _ (fun p => by by_cases h : p.1 = k <;> simp [h]), hfind]
    simp [hp0]
  · rw [if_neg hany]
    have hnone : m.find? (fun p => p.1 = k) = none := by
      rw [List.find?_eq_none]
      intro x hx
      simp only [List.any_eq_true] at hany
      push_neg at hany
      simpa using hany x hx
    unfold pairFind
    rw [find?_or_append, hnone]
    simp

theorem pairFind_addConnYear_ne (m : List ((String × String) × List Nat))
    {k k' : String × String} (y : Nat) (h : k' ≠ k) :
    pairFind (addConnYear m k y) k' = pairFind m k' := by
  unfold addConnYear pairFind
  by_cases hany : m.any (fun p => p.1 = k)
  · rw [if_pos hany,
      find?_map_keyfix m k' _ (fun p => by by_cases hh : p.1 = k <;> simp [hh])]
    rcases hfind : m.find? (fun p => p.1 = k') with _ | p0
    · rw [hfind]
      rfl
    · rw [hfind]
      have hp0 : p0.1 = k' := by simpa using List.find?_some hfind
      have hne : ¬ p0.1 = k := by rw [hp0]; exact h
      simp [hne]
  · rw [if_neg hany, find?_or_append]
    have h1 : List.find? (fun p => p.1 = k') [(k, [y])] = none := by
      simp [Ne.symm h]
    rw [h1, Option.or_none]

theorem connFold_pairFind (sl ss : List (String × String)) (serves : List ServeRec) :
    ∀ (m : List ((String × String) × List Nat)) (k : String × String),
    (pairFind (serves.foldl (connStep sl ss) m) k).getD [] =
      (pairFind m k).getD [] ++
        (serves.filter (fun r => serveTarget sl ss r = some k)).map (·.year) := by
  induction serves with
  | nil => intro m k; simp
  | cons r rest ih =>
    intro m k
    rw [List.foldl_cons]
    rcases ht : serveTarget sl ss r with _ | k0
    · rw [List.filter_cons_of_neg (by simp [ht])]
      have hstep : connStep sl ss m r = m := by simp [connStep, ht]
      rw [hstep]
      exact ih m k
    · have hstep : connStep sl ss m r = addConnYear m k0 r.year := by
        simp [connStep, ht]
      rw [hstep]
      by_cases hk : k0 = k
      · subst hk
        rw [List.filter_cons_of_pos (by simp [ht])]
        rw [ih (addConnYear m k0 r.year) k0, pairFind_addConnYear_self]
        simp
      · rw [List.filter_cons_of_neg (by simp [ht, hk])]
        rw [ih (addConnYear m k0 r.year) k,
          pairFind_addConnYear_ne m r.year (fun he => hk he.symm)]

theorem connFold_keys_nodup (sl ss : List (String × String)) (serves : List ServeRec) :
    ∀ m, (m.map (fun p => p.1)).Nodup →
      ((serves.foldl (connStep sl ss) m).map (fun p => p.1)).Nodup := by
  induction serves with
  | nil => intro m h; exact h
  | cons r rest ih =>
    intro m h
    rw [List.foldl_cons]
    apply ih
    rcases ht : serveTarget sl ss r with _ | k0
    · simpa [connStep, ht] using h
    · have hstep : connStep sl ss m r = addConnYear m k0 r.year := by
        simp [connStep, ht]
      rw [hstep]
      unfold addConnYear
      by_cases hany : m.any (fun p => p.1 = k0)
      · rw [if_pos hany]
        have hkeys : (m.map (fun p => if p.1 = k0 then (p.1, p.2 ++ [r.year]) else p)).map
            (fun p => p.1) = m.map (fun p => p.1) := by
          rw [List.map_map]
          apply List.map_congr_left
          intro a _
          by_cases hh : a.1 = k0 <;> simp [hh]
        rw [hkeys]
        exact h
      · rw [if_neg hany, List.map_append]
        simp only [List.any_eq_true] at hany
        push_neg at hany
        rw [List.nodup_append]
        refine ⟨h, List.nodup_singleton _, ?_⟩
        intro x hx hx1
        obtain ⟨p, hp, hpx⟩ := List.mem_map.mp hx
        have hxk : x = k0 := by simpa using hx1
        exact (hany p hp) (by simp [hpx, hxk])

theorem pairFind_of_mem_nodup :
    ∀ (m : List ((String × String) × List Nat)),
    (m.map (fun p => p.1)).Nodup →
    ∀ {k : String × String} {ys : List Nat}, (k, ys) ∈ m → pairFind m k = some ys := by
  intro m
  induction m with
  | nil => intro _ k ys h; cases h
  | cons a t ih =>
    intro hn k ys hm
    rcases List.mem_cons.mp hm with rfl | hmem
    · unfold pairFind
      rw [List.find?_cons_of_pos _ (by simp)]
      rfl
    · have hk : a.1 ≠ k := by
        rw [List.map_cons, List.nodup_cons] at hn
        intro he
        apply hn.1
        rw [he]
        exact List.mem_map_of_mem _ hmem
      unfold pairFind
      rw [List.find?_cons_of_neg _ (by simpa using hk)]
      exact ih (by rw [List.map_cons, List.nodup_cons] at hn; exact hn.2) hmem

def c5scand : StationCandidate :=
  ⟨"CS", "u-bahn", (0, 0), "east", ["s1"], [1960], 1⟩

def c5lcand : LineCandidate :=
  ⟨"CL", "u-bahn", "east", ["l1"], [1960], 1⟩

def c5serves : List ServeRec :=
  [⟨"l1", "s1", 1960, 1⟩, ⟨"l1", "s1", 1960, 2⟩]

/-- C5 counterexample.  Two serve rows for the same line, station and year
(e.g. a line stopping twice at the same station) are each counted by
`total_years = len(overlapping_snapshots)` *before* the `sorted(set(...))`
dedup, so the stored strength is `2/2 = 1` while the claim's
`|distinct observed years| / |available years|` is `1/2`. -/
theorem c5_connection_strength_counterexample :
    _analyze_core_connections [("cs", c5scand)] [("cl", c5lcand)] [1960, 1961] c5serves =
      [(("cl", "cs"), ⟨[1960], 1⟩)] ∧
    ¬ ((1 : Rat) = (([1960] : List Nat).length : Rat) /
        (([1960, 1961] : List Nat).length : Rat)) := by
  constructor
  · have haccum : c5serves.foldl (connStep
        (snapshotToCore ([("cl", c5lcand)].map (fun p => (p.1, p.2.snapshot_ids))))
        (snapshotToCore ([("cs", c5scand)].map (fun p => (p.1, p.2.snapshot_ids))))) [] =
        [(("cl", "cs"), [1960, 1960])] := by decide
    simp only [_analyze_core_connections, haccum, List.map]
    norm_num [pysorted]
  · norm_num

/-- C5 (amended).  Every `(core-line, core-station)` connection accumulated by
`_analyze_core_connections` carries the sorted set of distinct years of its
matching serve rows, but its strength is the *raw row count* divided by the
number of available snapshots; it equals |distinct years| / |available years|
only when no two matching rows share a year, and it lies in `[0, 1]` when
moreover the years come from the (duplicate-free, non-empty) year catalog. -/
theorem c5_connection_strength_amended
    (station_candidates : List (String × StationCandidate))
    (line_candidates : List (String × LineCandidate))
    (available_snapshots : List Nat) (serves : List ServeRec) :
    ∀ k info,
      (k, info) ∈ _analyze_core_connections station_candidates line_candidates
        available_snapshots serves →
    ∀ sl ss matching,
      sl = snapshotToCore (line_candidates.map (fun p => (p.1, p.2.snapshot_ids))) →
      ss = snapshotToCore (station_candidates.map (fun p => (p.1, p.2.snapshot_ids))) →
      matching = serves.filter (fun r => serveTarget sl ss r = some k) →
      info.overlapping_snapshots = pysorted ((matching.map (fun r => r.year)).dedup) ∧
      info.strength = (matching.length : Rat) / (available_snapshots.length : Rat) ∧
      ((matching.map (fun r => r.year)).Nodup →
        info.strength = (((matching.map (fun r => r.year)).dedup).length : Rat) /
          (available_snapshots.length : Rat)) ∧
      (available_snapshots ≠ [] → available_snapshots.Nodup →
        (∀ r ∈ matching, r.year ∈ available_snapshots) →
        (matching.map (fun r => r.year)).Nodup →
        0 ≤ info.strength ∧ info.strength ≤ 1) := by
  intro k info hmem sl ss matching hsl hss hmatch
  subst hsl
  subst hss
  rw [_analyze_core_connections] at hmem
  obtain ⟨p, hp, hpe⟩ := List.mem_map.mp hmem
  have hfst : p.1 = k := congrArg Prod.fst hpe
  have hsnd : ConnInfo.mk (pysorted p.2.dedup)
      ((p.2.length : Rat) / (available_snapshots.length : Rat)) = info :=
    congrArg Prod.snd hpe
  have hnodup := connFold_keys_nodup
    (snapshotToCore (line_candidates.map (fun p => (p.1, p.2.snapshot_ids))))
    (snapshotToCore (station_candidates.map (fun p => (p.1, p.2.snapshot_ids))))
    serves [] (by simp)
  have hp' : (k, p.2) ∈ serves.foldl (connStep
      (snapshotToCore (line_candidates.map (fun p => (p.1, p.2.snapshot_ids))))
      (snapshotToCore (station_candidates.map (fun p => (p.1, p.2.snapshot_ids))))) [] := by
    rw [← hfst]
    simpa using hp
  have hfind := pairFind_of_mem_nodup _ hnodup hp'
  have hfold := connFold_pairFind
    (snapshotToCore (line_candidates.map (fun p => (p.1, p.2.snapshot_ids))))
    (snapshotToCore (station_candidates.map (fun p => (p.1, p.2.snapshot_ids))))
    serves [] k
  rw [hfind] at hfold
  simp only [Option.getD_some, pairFind, List.find?_nil, Option.map_none, Option.getD_none,
    List.nil_append] at hfold
  have hyears : p.2 = matching.map (fun r => r.year) := by
    rw [hmatch]
    exact hfold
  have hinfo1 : info.overlapping_snapshots = pysorted p.2.dedup := by
    rw [← hsnd]
  have hinfo2 : info.strength = (p.2.length : Rat) / (available_snapshots.length : Rat) := by
    rw [← hsnd]
  refine ⟨?_, ?_, ?_, ?_⟩
  · rw [hinfo1, hyears]
  · rw [hinfo2, hyears, List.length_map]
  · intro hnd
    rw [hinfo2, hyears, List.length_map, List.dedup_eq_self.mpr hnd, List.length_map]
  · intro hne hnda hsub hnd
    constructor
    · rw [hinfo2]
      positivity
    · rw [hinfo2, hyears, List.length_map]
      rw [div_le_one (by
        have : 0 < available_snapshots.length := List.length_pos.mpr hne
        exact_mod_cast this)]
      have hsp : (matching.map (fun r => r.year)).Subperm available_snapshots := by
        apply List.Nodup.subperm hnd
        intro y hy
        obtain ⟨r, hr, hry⟩ := List.mem_map.mp hy
        exact hry ▸ hsub r hr
      have := hsp.length_le
      rw [List.length_map] at this
      exact_mod_cast this

def c5serves1 : List ServeRec := [⟨"l1", "s1", 1960, 1⟩]

theorem c5_connection_strength_amended_witness :
    (0 : Rat) ≤ (ConnInfo.mk [1960] (1/2)).strength ∧
      (ConnInfo.mk [1960] (1/2)).strength ≤ 1 :=
  (c5_connection_strength_amended [("cs", c5scand)] [("cl", c5lcand)] [1960, 1961] c5serves1
    ("cl", "cs") (ConnInfo.mk [1960] (1/2)) (by
      have haccum : c5serves1.foldl (connStep
          (snapshotToCore ([("cl", c5lcand)].map (fun p => (p.1, p.2.snapshot_ids))))
          (snapshotToCore ([("cs", c5scand)].map (fun p => (p.1, p.2.snapshot_ids))))) [] =
          [(("cl", "cs"), [1960])] := by decide
      simp only [_analyze_core_connections, haccum, List.map]
      norm_num [pysorted])
    (snapshotToCore ([("cl", c5lcand)].map (fun p => (p.1, p.2.snapshot_ids))))
    (snapshotToCore ([("cs", c5scand)].map (fun p => (p.1, p.2.snapshot_ids))))
    (c5serves1.filter (fun r => serveTarget
      (snapshotToCore ([("cl", c5lcand)].map (fun p => (p.1, p.2.snapshot_ids))))
      (snapshotToCore ([("cs", c5scand)].map (fun p => (p.1, p.2.snapshot_ids)))) r =
        some ("cl", "cs")))
    rfl rfl rfl).2.2.2 (by decide) (by decide) (by decide) (by decide)

/-! ## C6/C9: unified-line side resolution -/

theorem dictGet_dictSet {V : Type} (m : List (LKey × V)) (k k' : LKey) (v : V) :
    dictGet (dictSet m k v) k' = if k' = k then some v else dictGet m k' := by
  unfold dictSet dictGet
  by_cases hany : m.any (fun p => p.1 = k)
  · rw [if_pos hany,
      find?_map_keyfix m k' _ (fun p => by by_cases h : p.1 = k <;> simp [h])]
    by_cases hk : k' = k
    · subst hk
      have hsome : (m.find? (fun p => p.1 = k')).isSome := by
        rw [List.find?_isSome]
        rcases List.any_eq_true.mp hany with ⟨x, hx, hxk⟩
        exact ⟨x, hx, hxk⟩
      obtain ⟨p0, hfind⟩ := Option.isSome_iff_exists.mp hsome
      have hp0 : p0.1 = k' := by simpa using List.find?_some hfind
      rw [hfind, if_pos rfl]
      simp [hp0]
    · rw [if_neg hk]
      rcases hfind : m.find? (fun p => p.1 = k') with _ | p0
      · rw [hfind]
        rfl
      · rw [hfind]
        have hp0 : p0.1 = k' := by simpa using List.find?_some hfind
        have hne : ¬ p0.1 = k := fun he => hk (hp0 ▸ he)
        simp [hne]
  · rw [if_neg hany, find?_or_append]
    by_cases hk : k' = k
    · subst hk
      have hnone : m.find? (fun p => p.1 = k') = none := by
        rw [List.find?_eq_none]
        intro x hx
        simp only [List.any_eq_true] at hany
        push_neg at hany
        simpa using hany x hx
      rw [hnone, if_pos rfl]
      simp
    · rw [if_neg hk]
      have h1 : List.find? (fun p => p.1 = k') [(k, v)] = none := by
        simp [Ne.symm hk]
      rw [h1, Option.or_none]

theorem dictGet_dictExtend {V : Type} (m : List (LKey × List V)) (k k' : LKey)
    (l : List V) :
    dictGet (dictExtend m k l) k' =
      if k' = k then (dictGet m k').map (· ++ l) else dictGet m k' := by
  unfold dictExtend dictGet
  rw [find?_map_keyfix m k' _ (fun p => by by_cases h : p.1 = k <;> simp [h])]
  by_cases hk : k' = k
  · subst hk
    rcases hfind : m.find? (fun p => p.1 = k') with _ | p0
    · rw [hfind]
      simp
    · rw [hfind]
      have hp0 : p0.1 = k' := by simpa using List.find?_some hfind
      simp [hp0]
  · rw [if_neg hk]
    rcases hfind : m.find? (fun p => p.1 = k') with _ | p0
    · rw [hfind]
      rfl
    · rw [hfind]
      have hp0 : p0.1 = k' := by simpa using List.find?_some hfind
      have hne : ¬ p0.1 = k := fun he => hk (hp0 ▸ he)
      simp [hne]

theorem processUnified_preserves (station_lons : String → List Rat)
    (m : List (LKey × List LineRec)) (uk : LKey) (L : List LineRec)
    (n t x : String) (h : ¬ (uk.1 = n ∧ uk.2.1 = t)) :
    dictGet (processUnified station_lons m uk L) ((n, t, x) : LKey) =
      dictGet m ((n, t, x) : LKey) := by
  have hne : ∀ y : String, ((n, t, x) : LKey) ≠ (uk.1, uk.2.1, y) := by
    intro y he
    rw [Prod.mk.injEq, Prod.mk.injEq] at he
    exact h ⟨he.1.symm, he.2.1.symm⟩
  have hneuk : ((n, t, x) : LKey) ≠ uk := by
    intro he
    exact hne uk.2.2 (by rw [he])
  simp only [processUnified]
  split_ifs with h1 h2 h3 h4 h5
  · rw [dictGet_dictExtend, if_neg (hne "east")]
  · rw [dictGet_dictExtend, if_neg (hne "west")]
  · rw [dictGet_dictSet, if_neg (hne "east")]
  · rw [dictGet_dictSet, if_neg (hne "west")]
  · rw [dictGet_dictSet, if_neg hneuk]
  · rw [dictGet_dictSet, if_neg (hne _)]

theorem foldProcess_preserves (station_lons : String → List Rat)
    (us : List (LKey × List LineRec)) (n t : String)
    (h : ∀ p ∈ us, ¬ (p.1.1 = n ∧ p.1.2.1 = t)) :
    ∀ (m : List (LKey × List LineRec)) (x : String),
    dictGet (us.foldl (fun r p => processUnified station_lons r p.1 p.2) m)
        ((n, t, x) : LKey) =
      dictGet m ((n, t, x) : LKey) := by
  induction us with
  | nil => intro m x; rfl
  | cons q rest ih =>
    intro m x
    rw [List.foldl_cons,
      ih (fun p hp => h p (List.mem_cons_of_mem q hp)) _ x,
      processUnified_preserves _ _ _ _ _ _ _ (h q (List.mem_cons_self q rest))]

theorem dictGet_filter_third_ne (groups : List (LKey × List LineRec))
    (n t y : String) (hy : y ≠ "unified") :
    dictGet (groups.filter (fun p => p.1.2.2 ≠ "unified")) ((n, t, y) : LKey) =
      dictGet groups ((n, t, y) : LKey) := by
  induction groups with
  | nil => rfl
  | cons a rest ih =>
    by_cases ha : a.1.2.2 = "unified"
    · rw [List.filter_cons_of_neg (by simpa using ha)]
      have hne : ¬ a.1 = ((n, t, y) : LKey) := by
        intro he
        apply hy
        rw [← show a.1.2.2 = y from by rw [he], ha]
      unfold dictGet
      rw [List.find?_cons_of_neg _ (by simpa using hne)]
      exact ih
    · rw [List.filter_cons_of_pos (by simpa using ha)]
      unfold dictGet
      by_cases hk : a.1 = ((n, t, y) : LKey)
      · rw [List.find?_cons_of_pos _ (by simpa using hk),
          List.find?_cons_of_pos _ (by simpa using hk)]
      · rw [List.find?_cons_of_neg _ (by simpa using hk),
          List.find?_cons_of_neg _ (by simpa using hk)]
        exact ih

theorem dictGet_filter_unified_none (groups : List (LKey × List LineRec))
    (n t : String) :
    dictGet (groups.filter (fun p => p.1.2.2 ≠ "unified"))
      ((n, t, "unified") : LKey) = none := by
  have hnone : (groups.filter (fun p => p.1.2.2 ≠ "unified")).find?
      (fun p => p.1 = ((n, t, "unified") : LKey)) = none := by
    rw [List.find?_eq_none]
    intro p hp
    have hmem := List.of_mem_filter hp
    simp only [decide_eq_true_eq] at hmem ⊢
    intro he
    exact hmem (by rw [he])
  unfold dictGet
  rw [hnone]
  rfl

theorem resolve_unified_to_process (station_lons : String → List Rat)
    (line_groups : List (LKey × List LineRec)) (n t : String) (L : List LineRec)
    (hkeys : (line_groups.map (fun p => p.1)).Nodup)
    (hu : dictGet line_groups ((n, t, "unified") : LKey) = some L) :
    ∃ m1 : List (LKey × List LineRec),
      (∀ x, dictGet (_resolve_unified_lines station_lons line_groups) ((n, t, x) : LKey) =
        dictGet (processUnified station_lons m1 ((n, t, "unified") : LKey) L)
          ((n, t, x) : LKey)) ∧
      (∀ x, x ≠ "unified" →
        dictGet m1 ((n, t, x) : LKey) = dictGet line_groups ((n, t, x) : LKey)) ∧
      dictGet m1 ((n, t, "unified") : LKey) = none := by
  have hmemg : (((n, t, "unified") : LKey), L) ∈ line_groups := by
    unfold dictGet at hu
    rcases hfind : line_groups.find? (fun p => p.1 = ((n, t, "unified") : LKey))
      with _ | p0
    · rw [hfind] at hu
      cases hu
    · rw [hfind] at hu
      have hp1 : p0.1 = ((n, t, "unified") : LKey) := by
        simpa using List.find?_some hfind
      have hp2 : p0.2 = L := by simpa using hu
      have hmem := List.mem_of_find?_eq_some hfind
      rwa [← hp1, ← hp2, Prod.mk.eta]
  have hmemu : (((n, t, "unified") : LKey), L) ∈
      line_groups.filter (fun p => p.1.2.2 = "unified") :=
    List.mem_filter.mpr ⟨hmemg, by simp⟩
  obtain ⟨u1, u2, hsplit⟩ := List.append_of_mem hmemu
  have husnodup : ((line_groups.filter (fun p => p.1.2.2 = "unified")).map
      (fun p => p.1)).Nodup :=
    ((List.filter_sublist line_groups).map (fun p => p.1)).nodup hkeys
  have hnodup2 := husnodup
  rw [hsplit, List.map_append, List.map_cons, List.nodup_append] at hnodup2
  have hothers : ∀ p, p ∈ u1 ++ u2 → ¬ (p.1.1 = n ∧ p.1.2.1 = t) := by
    rintro ⟨⟨a, bc⟩, v⟩ hp ⟨ha, hb⟩
    have hpu : ((((a, bc) : LKey), v) : LKey × List LineRec) ∈
        line_groups.filter (fun p => p.1.2.2 = "unified") := by
      rw [hsplit]
      rcases List.mem_append.mp hp with h1 | h2
      · exact List.mem_append_left _ h1
      · exact List.mem_append_right _ (List.mem_cons_of_mem _ h2)
    have h3 : bc.2 = "unified" := by simpa using (List.mem_filter.mp hpu).2
    simp only at ha hb
    have hkey : ((a, bc) : LKey) = ((n, t, "unified") : LKey) := by
      rw [ha]
      have hbc : bc = (t, "unified") := by
        rw [← hb, ← h3]
      rw [hbc]
    rcases List.mem_append.mp hp with h1 | h2
    · have hmk : ((n, t, "unified") : LKey) ∈ u1.map (fun p => p.1) := by
        rw [← hkey]
        exact List.mem_map_of_mem (fun p => p.1) h1
      exact hnodup2.2.2 hmk (List.mem_cons_self _ _)
    · have hmk : ((n, t, "unified") : LKey) ∈ u2.map (fun p => p.1) := by
        rw [← hkey]
        exact List.mem_map_of_mem (fun p => p.1) h2
      exact (List.nodup_cons.mp hnodup2.2.1).1 hmk
  refine ⟨u1.foldl (fun resolved p => processUnified station_lons resolved p.1 p.2)
      (line_groups.filter (fun p => p.1.2.2 ≠ "unified")), ?_, ?_, ?_⟩
  · intro x
    show dictGet ((line_groups.filter (fun p => p.1.2.2 = "unified")).foldl
        (fun resolved p => processUnified station_lons resolved p.1 p.2)
        (line_groups.filter (fun p => p.1.2.2 ≠ "unified"))) ((n, t, x) : LKey) = _
    rw [hsplit, List.foldl_append, List.foldl_cons]
    exact foldProcess_preserves station_lons u2 n t
      (fun p hp => hothers p (List.mem_append_right _ hp)) _ x
  · intro x hx
    rw [foldProcess_preserves station_lons u1 n t
      (fun p hp => hothers p (List.mem_append_left _ hp)) _ x]
    exact dictGet_filter_third_ne line_groups n t x hx
  · rw [foldProcess_preserves station_lons u1 n t
      (fun p hp => hothers p (List.mem_append_left _ hp)) _ "unified"]
    exact dictGet_filter_unified_none line_groups n t

/-- C6.  For a "unified" line group with at least one served-station
longitude, the side is "east" exactly when the mean longitude is strictly
greater than 13.4 (a mean of exactly 13.4 goes west); when a counterpart
group for the assigned side and same (name, type) already exists, the
unified group's lines are appended into it and no `(name, type, *)` key is
created or dropped besides removing the unified one; when no counterpart
exists, a group under the assigned side's key is created holding exactly
the unified group's lines. -/
theorem c6_unified_line_side_assignment
    (station_lons : String → List Rat) (line_groups : List (LKey × List LineRec))
    (n t : String) (L : List LineRec)
    (hkeys : (line_groups.map (fun p => p.1)).Nodup)
    (hu : dictGet line_groups ((n, t, "unified") : LKey) = some L) :
    (∀ lons, lons = L.foldl (fun acc line => acc ++ station_lons line.line_id) [] →
      lons ≠ [] →
      ((13.4 < lons.sum / (lons.length : Rat) →
          _determine_line_side station_lons L 13.4 = "east") ∧
       (lons.sum / (lons.length : Rat) ≤ 13.4 →
          _determine_line_side station_lons L 13.4 = "west"))) ∧
    (∀ s, s = "east" ∨ s = "west" →
      _determine_line_side station_lons L 13.4 = s →
      (∀ L0, dictGet line_groups ((n, t, s) : LKey) = some L0 →
        dictGet (_resolve_unified_lines station_lons line_groups) ((n, t, s) : LKey) =
          some (L0 ++ L) ∧
        (∀ x, (dictGet (_resolve_unified_lines station_lons line_groups)
            ((n, t, x) : LKey)).isSome ↔
          (x ≠ "unified" ∧ (dictGet line_groups ((n, t, x) : LKey)).isSome))) ∧
      (dictGet line_groups ((n, t, s) : LKey) = none →
        dictGet (_resolve_unified_lines station_lons line_groups) ((n, t, s) : LKey) =
          some L)) := by
  obtain ⟨m1, hres, hget, hgetu⟩ :=
    resolve_unified_to_process station_lons line_groups n t L hkeys hu
  constructor
  · intro lons hlons hne
    constructor <;> intro hcmp <;> simp only [_determine_line_side] <;> rw [← hlons]
    · rw [if_neg hne, if_pos hcmp]
    · rw [if_neg hne, if_neg (not_lt.mpr hcmp)]
  · rintro s (rfl | rfl) hside
    · constructor
      · intro L0 hL0
        have hm1s : dictGet m1 ((n, t, "east") : LKey) = some L0 := by
          rw [hget "east" (by decide)]
          exact hL0
        have heast : (dictGet m1 ((n, t, "east") : LKey)).isSome = true := by
          rw [hm1s]
          rfl
        have hpe : processUnified station_lons m1 ((n, t, "unified") : LKey) L =
            dictExtend m1 ((n, t, "east") : LKey) L := by
          simp only [processUnified]
          rw [if_pos (Bool.or_eq_true_iff.mpr (Or.inl heast)), if_pos ⟨hside, heast⟩]
        constructor
        · rw [hres, hpe, dictGet_dictExtend, if_pos rfl, hm1s]
          rfl
        · intro x
          rw [hres x, hpe, dictGet_dictExtend]
          by_cases hx : ((n, t, x) : LKey) = ((n, t, "east") : LKey)
          · have hxe : x = "east" := by simpa using hx
            subst hxe
            rw [if_pos hx, hm1s, hL0]
            simp
          · rw [if_neg hx]
            have hxe : x ≠ "east" := fun he => hx (by rw [he])
            by_cases hxu : x = "unified"
            · subst hxu
              rw [hgetu, hu]
              simp
            · rw [hget x hxu]
              simp [hxu]
      · intro hnone
        have hm1s : dictGet m1 ((n, t, "east") : LKey) = none := by
          rw [hget "east" (by decide)]
          exact hnone
        have hpe : processUnified station_lons m1 ((n, t, "unified") : LKey) L =
            dictSet m1 ((n, t, "east") : LKey) L := by
          by_cases hwest : (dictGet m1 ((n, t, "west") : LKey)).isSome = true
          · simp only [processUnified]
            rw [if_pos (Bool.or_eq_true_iff.mpr (Or.inr hwest)),
              if_neg (fun hc => by rw [hm1s] at hc; exact absurd hc.2 (by simp)),
              if_neg (fun hc => absurd (hside.symm.trans hc.1) (by decide)),
              if_pos ⟨hside, by rw [hm1s]; simp⟩]
          · simp only [processUnified]
            rw [if_neg (fun hc => by
              rcases Bool.or_eq_true_iff.mp hc with h | h
              · rw [hm1s] at h
                exact absurd h (by simp)
              · exact hwest h), hside]
        rw [hres, hpe, dictGet_dictSet, if_pos rfl]
    · constructor
      · intro L0 hL0
        have hm1s : dictGet m1 ((n, t, "west") : LKey) = some L0 := by
          rw [hget "west" (by decide)]
          exact hL0
        have hwest : (dictGet m1 ((n, t, "west") : LKey)).isSome = true := by
          rw [hm1s]
          rfl
        have hpe : processUnified station_lons m1 ((n, t, "unified") : LKey) L =
            dictExtend m1 ((n, t, "west") : LKey) L := by
          simp only [processUnified]
          rw [if_pos (Bool.or_eq_true_iff.mpr (Or.inr hwest)),
            if_neg (fun hc => absurd (hside.symm.trans hc.1) (by decide)),
            if_pos ⟨hside, hwest⟩]
        constructor
        · rw [hres, hpe, dictGet_dictExtend, if_pos rfl, hm1s]
          rfl
        · intro x
          rw [hres x, hpe, dictGet_dictExtend]
          by_cases hx : ((n, t, x) : LKey) = ((n, t, "west") : LKey)
          · have hxe : x = "west" := by simpa using hx
            subst hxe
            rw [if_pos hx, hm1s, hL0]
            simp
          · rw [if_neg hx]
            by_cases hxu : x = "unified"
            · subst hxu
              rw [hgetu, hu]
              simp
            · rw [hget x hxu]
              simp [hxu]
      · intro hnone
        have hm1s : dictGet m1 ((n, t, "west") : LKey) = none := by
          rw [hget "west" (by decide)]
          exact hnone
        have hpe : processUnified station_lons m1 ((n, t, "unified") : LKey) L =
            dictSet m1 ((n, t, "west") : LKey) L := by
          by_cases heast : (dictGet m1 ((n, t, "east") : LKey)).isSome = true
          · simp only [processUnified]
            rw [if_pos (Bool.or_eq_true_iff.mpr (Or.inl heast)),
              if_neg (fun hc => absurd (hside.symm.trans hc.1) (by decide)),
              if_neg (fun hc => by rw [hm1s] at hc; exact absurd hc.2 (by simp)),
              if_neg (fun hc => absurd (hside.symm.trans hc.1) (by decide)),
              if_pos ⟨hside, by rw [hm1s]; simp⟩]
          · simp only [processUnified]
            rw [if_neg (fun hc => by
              rcases Bool.or_eq_true_iff.mp hc with h | h
              · exact heast h
              · rw [hm1s] at h
                exact absurd h (by simp)), hside]
        rw [hres, hpe, dictGet_dictSet, if_pos rfl]

theorem foldl_lons_nil (station_lons : String → List Rat) (L : List LineRec)
    (h : ∀ l ∈ L, station_lons l.line_id = []) :
    ∀ acc : List Rat, L.foldl (fun acc line => acc ++ station_lons line.line_id) acc = acc := by
  induction L with
  | nil => intro acc; rfl
  | cons x xs ih =>
    intro acc
    rw [List.foldl_cons, h x (List.mem_cons_self x xs), List.append_nil]
    exact ih (fun l hl => h l (List.mem_cons_of_mem _ hl)) acc

/-- C9.  A unified line group none of whose member lines serves any station
with a longitude gets side "unified" from `_determine_line_side`, and
`_resolve_unified_lines` keeps the group under its original unified key —
the lines are never dropped and the east/west entries are untouched. -/
theorem c9_unresolved_unified_kept
    (station_lons : String → List Rat) (line_groups : List (LKey × List LineRec))
    (n t : String) (L : List LineRec)
    (hkeys : (line_groups.map (fun p => p.1)).Nodup)
    (hu : dictGet line_groups ((n, t, "unified") : LKey) = some L)
    (hnolons : ∀ l ∈ L, station_lons l.line_id = []) :
    _determine_line_side station_lons L 13.4 = "unified" ∧
    dictGet (_resolve_unified_lines station_lons line_groups)
      ((n, t, "unified") : LKey) = some L ∧
    dictGet (_resolve_unified_lines station_lons line_groups)
      ((n, t, "east") : LKey) = dictGet line_groups ((n, t, "east") : LKey) ∧
    dictGet (_resolve_unified_lines station_lons line_groups)
      ((n, t, "west") : LKey) = dictGet line_groups ((n, t, "west") : LKey) := by
  have hside : _determine_line_side station_lons L 13.4 = "unified" := by
    simp only [_determine_line_side]
    rw [foldl_lons_nil station_lons L hnolons []]
    rfl
  obtain ⟨m1, hres, hget, hgetu⟩ :=
    resolve_unified_to_process station_lons line_groups n t L hkeys hu
  have hpe : processUnified station_lons m1 ((n, t, "unified") : LKey) L =
      dictSet m1 ((n, t, "unified") : LKey) L := by
    by_cases hany : ((dictGet m1 ((n, t, "east") : LKey)).isSome ||
        (dictGet m1 ((n, t, "west") : LKey)).isSome) = true
    · simp only [processUnified]
      rw [if_pos hany,
        if_neg (fun hc => absurd (hside.symm.trans hc.1) (by decide)),
        if_neg (fun hc => absurd (hside.symm.trans hc.1) (by decide)),
        if_neg (fun hc => absurd (hside.symm.trans hc.1) (by decide)),
        if_neg (fun hc => absurd (hside.symm.trans hc.1) (by decide))]
    · simp only [processUnified]
      rw [if_neg hany, hside]
  refine ⟨hside, ?_, ?_, ?_⟩
  · rw [hres "unified", hpe, dictGet_dictSet, if_pos rfl]
  · rw [hres "east", hpe, dictGet_dictSet, if_neg (by simp), hget "east" (by decide)]
  · rw [hres "west", hpe, dictGet_dictSet, if_neg (by simp), hget "west" (by decide)]

def c6u1 : LineRec := ⟨"u1", "A", "tram", "unified", 1946⟩

def c6w1 : LineRec := ⟨"w1", "A", "tram", "west", 1950⟩

def c6lons : String → List Rat := fun id => if id = "u1" then [13.0, 13.1] else []

def c6groups : List (LKey × List LineRec) :=
  [(("A", "tram", "west"), [c6w1]), (("A", "tram", "unified"), [c6u1])]

theorem c6_unified_line_side_assignment_witness :
    dictGet (_resolve_unified_lines c6lons c6groups) (("A", "tram", "west") : LKey) =
      some [c6w1, c6u1] ∧
    ¬ (dictGet (_resolve_unified_lines c6lons c6groups)
        (("A", "tram", "unified") : LKey)).isSome = true := by
  have h := c6_unified_line_side_assignment c6lons c6groups "A" "tram" [c6u1]
    (by decide) (by decide)
  have hside : _determine_line_side c6lons [c6u1] 13.4 = "west" := by
    refine (h.1 _ rfl ?_).2 ?_
    · simp [c6lons, c6u1]
    · simp only [List.foldl_cons, List.foldl_nil, c6lons, c6u1, List.nil_append]
      norm_num
  have h2 := (h.2 "west" (Or.inr rfl) hside).1 [c6w1] (by decide)
  constructor
  · simpa using h2.1
  · rw [h2.2 "unified"]
    simp

def c9b1 : LineRec := ⟨"b1", "B", "tram", "unified", 1946⟩

def c9groups : List (LKey × List LineRec) := [(("B", "tram", "unified"), [c9b1])]

theorem c9_unresolved_unified_kept_witness :
    _determine_line_side (fun _ => []) [c9b1] 13.4 = "unified" ∧
    dictGet (_resolve_unified_lines (fun _ => []) c9groups)
      (("B", "tram", "unified") : LKey) = some [c9b1] :=
  let h := c9_unresolved_unified_kept (fun _ => []) c9groups "B" "tram" [c9b1]
    (by decide) (by decide) (fun l _ => rfl)
  ⟨h.1, h.2.1⟩

/-! ## C10: the update path overwrites only the refreshed properties -/

/-- The properties `populate_core_stations` never writes on the update path:
name, type, east_west, created_date, source. -/
def stationFrame (nd : CoreStationNode) : String × String × String × Nat × String :=
  (nd.name, nd.type, nd.east_west, nd.created_date, nd.source)

/-- The properties `populate_core_lines` never writes on the update path. -/
def lineFrame (nd : CoreLineNode) : String × String × String × Nat × String :=
  (nd.name, nd.type, nd.east_west, nd.created_date, nd.source)

theorem link_station_coreStations (core_id : String) (ids : List String)
    (conf : Rat) (now : Nat) :
    ∀ st : Store,
    (linkStationSnapshots core_id ids conf now st).coreStations = st.coreStations := by
  induction ids with
  | nil => intro st; rfl
  | cons sid rest ih =>
    intro st
    show (linkStationSnapshots core_id rest conf now _).coreStations = _
    rw [ih]
    dsimp only
    split_ifs <;> rfl

theorem link_line_coreLines (core_id : String) (ids : List String)
    (conf : Rat) (now : Nat) :
    ∀ st : Store,
    (linkLineSnapshots core_id ids conf now st).coreLines = st.coreLines := by
  induction ids with
  | nil => intro st; rfl
  | cons sid rest ih =>
    intro st
    show (linkLineSnapshots core_id rest conf now _).coreLines = _
    rw [ih]
    dsimp only
    split_ifs <;> rfl

theorem map_frame_update_eq (cs : List CoreStationNode) (cid : String)
    (ap : Option PeriodJson) (conf lat lon : Rat) (now : Nat) :
    ((cs.map (fun n => if n.core_id = cid then
        { n with
          activity_period := ap
          source_confidence := conf
          updated_date := some now
          latitude := lat
          longitude := lon } else n)).map stationFrame) = cs.map stationFrame := by
  rw [List.map_map]
  apply List.map_congr_left
  intro n _
  by_cases hn : n.core_id = cid <;> simp [stationFrame, Function.comp, hn]

theorem map_lineFrame_update_eq (cs : List CoreLineNode) (cid : String)
    (ap : Option PeriodJson) (conf : Rat) (now : Nat) :
    ((cs.map (fun n => if n.core_line_id = cid then
        { n with
          activity_period := ap
          source_confidence := conf
          updated_date := some now } else n)).map lineFrame) = cs.map lineFrame := by
  rw [List.map_map]
  apply List.map_congr_left
  intro n _
  by_cases hn : n.core_line_id = cid <;> simp [lineFrame, Function.comp, hn]

theorem populateStationStep_frame (avail : List Nat) (now : Nat)
    (cand : String × StationCandidate) (st : Store) :
    (st.coreStations.map stationFrame) <+:
      ((populateStationStep avail now st cand).coreStations.map stationFrame) := by
  have hlink := link_station_coreStations cand.1 cand.2.snapshot_ids
    cand.2.source_confidence now
  rcases hex : st.coreStations.find? (fun n => n.core_id = cand.1) with _ | node
  · simp only [populateStationStep, hex]
    rw [hlink, List.map_append]
    exact List.prefix_append _ _
  · simp only [populateStationStep, hex]
    rw [hlink, map_frame_update_eq]

theorem populateLineStep_frame (avail : List Nat) (now : Nat)
    (cand : String × LineCandidate) (st : Store) :
    (st.coreLines.map lineFrame) <+:
      ((populateLineStep avail now st cand).coreLines.map lineFrame) := by
  have hlink := link_line_coreLines cand.1 cand.2.snapshot_ids
    cand.2.source_confidence now
  rcases hex : st.coreLines.find? (fun n => n.core_line_id = cand.1) with _ | node
  · simp only [populateLineStep, hex]
    rw [hlink, List.map_append]
    exact List.prefix_append _ _
  · simp only [populateLineStep, hex]
    rw [hlink, map_lineFrame_update_eq]

/-- C10.  Populating never rewrites the identity properties of nodes already
in the store: after `populate_core_stations` (resp. `populate_core_lines`)
the `(name, type, east_west, created_date, source)` tuples of the
pre-existing Core nodes are unchanged and in place (freshly created nodes
are only appended) — on the update path only `activity_period`,
`source_confidence`, `updated_date` (and, for stations,
`latitude`/`longitude`) are written. -/
theorem c10_update_frame_fields (avail : List Nat) (now : Nat)
    (scands : List (String × StationCandidate)) (lcands : List (String × LineCandidate))
    (st : Store) :
    ((st.coreStations.map stationFrame) <+:
      ((populate_core_stations avail now scands st).coreStations.map stationFrame)) ∧
    ((st.coreLines.map lineFrame) <+:
      ((populate_core_lines avail now lcands st).coreLines.map lineFrame)) := by
  constructor
  · induction scands generalizing st with
    | nil => exact List.prefix_rfl
    | cons c cs ih =>
      exact (populateStationStep_frame avail now c st).trans
        (ih (populateStationStep avail now st c))
  · induction lcands generalizing st with
    | nil => exact List.prefix_rfl
    | cons c cs ih =>
      exact (populateLineStep_frame avail now c st).trans
        (ih (populateLineStep avail now st c))

/-! ## C1: idempotence of populate_core_stations -/

/-- The node created for a fresh candidate (lines 776-799). -/
def createdStationNode (avail : List Nat) (now : Nat) (core_id : String)
    (c : StationCandidate) : CoreStationNode :=
  { core_id := core_id
    name := c.name
    type := c.type
    latitude := c.location.1
    longitude := c.location.2
    east_west := c.east_west
    activity_period := some (c.get_activity_period avail).to_json_string
    source_confidence := c.source_confidence
    created_date := now
    updated_date := none
    source := "core_entity_resolver" }

/-- A core-station node with its `updated_date` timestamp erased: everything
the idempotence claim compares is invariant under this projection. -/
def stripStation (n : CoreStationNode) : CoreStationNode :=
  { n with updated_date := none }

/-- `CoreStation` node count for one core id. -/
def countCoreStations (st : Store) (k : String) : Nat :=
  (st.coreStations.filter (fun n => n.core_id = k)).length

/-- The stored serialized activity period of the core station with id `k`. -/
def storedStationPeriod (st : Store) (k : String) : Option (Option PeriodJson) :=
  (st.coreStations.find? (fun n => n.core_id = k)).map (fun n => n.activity_period)

/-- Number of `HAS_SNAPSHOT` edges from core station `k` to the given
snapshot station ids (regardless of the edges' property maps). -/
def snapshotEdgeCount (st : Store) (k : String) (ids : List String) : Nat :=
  (st.stationSnapshotEdges.filter
    (fun e => e.core_id = k ∧ e.snapshot_id ∈ ids)).length

/-- The `HAS_SNAPSHOT` edges one linking pass writes for a candidate when its
Core node is present and no edge with this run's timestamp exists yet: one
edge per snapshot id that has a matching `Station` node. -/
def linkedStationEdges (now : Nat) (stationsIdx : List String)
    (p : String × StationCandidate) : List SnapshotEdge :=
  (p.2.snapshot_ids.filter (fun sid => sid ∈ stationsIdx)).map
    (fun sid => ⟨p.1, sid, now, p.2.source_confidence⟩)

/-- One linking pass, run when the Core node exists and no stored edge
carries this run's timestamp/confidence pair: it appends exactly one fresh
edge per snapshot id with a matching `Station` node. -/
theorem link_station_append (core_id : String) (conf : Rat) (now : Nat) :
    ∀ (ids : List String) (st : Store),
    (st.coreStations.any (fun n => n.core_id = core_id)) = true →
    ids.Nodup →
    (∀ sid ∈ ids,
      (⟨core_id, sid, now, conf⟩ : SnapshotEdge) ∉ st.stationSnapshotEdges) →
    linkStationSnapshots core_id ids conf now st =
      { st with stationSnapshotEdges := st.stationSnapshotEdges ++
                    (ids.filter (fun sid => sid ∈ st.stations)).map
                      (fun sid => ⟨core_id, sid, now, conf⟩) } := by
  intro ids
  induction ids with
  | nil =>
    intro st _ _ _
    show st = _
    cases st
    simp
  | cons sid0 rest ih =>
    intro st hany hnd hfresh
    rw [List.nodup_cons] at hnd
    have hstep : linkStationSnapshots core_id (sid0 :: rest) conf now st =
        linkStationSnapshots core_id rest conf now
          (if (st.coreStations.any (fun n => n.core_id = core_id)) ∧ sid0 ∈ st.stations then
            if (⟨core_id, sid0, now, conf⟩ : SnapshotEdge) ∈ st.stationSnapshotEdges then st
            else { st with stationSnapshotEdges :=
                    st.stationSnapshotEdges ++ [⟨core_id, sid0, now, conf⟩] }
          else st) := rfl
    rw [hstep]
    by_cases hs0 : sid0 ∈ st.stations
    · rw [if_pos ⟨hany, hs0⟩,
        if_neg (hfresh sid0 (List.mem_cons_self _ _))]
      rw [ih { st with stationSnapshotEdges :=
          st.stationSnapshotEdges ++ [⟨core_id, sid0, now, conf⟩] } hany hnd.2 ?_]
      · rw [List.filter_cons_of_pos (by simpa using hs0)]
        simp [List.append_assoc]
      · intro sid hsid hmem
        rcases List.mem_append.mp hmem with h | h
        · exact hfresh sid (List.mem_cons_of_mem _ hsid) h
        · have : sid = sid0 := by
            have := List.mem_singleton.mp h
            exact congrArg SnapshotEdge.snapshot_id this
          exact hnd.1 (this ▸ hsid)
    · rw [if_neg (fun hc => hs0 hc.2)]
      rw [ih st hany hnd.2
        (fun sid hsid => hfresh sid (List.mem_cons_of_mem _ hsid))]
      rw [List.filter_cons_of_neg (by simpa using hs0)]

theorem sorted_nodup_ext {l₁ l₂ : List Nat} (s₁ : l₁.Sorted (· ≤ ·))
    (s₂ : l₂.Sorted (· ≤ ·)) (n₁ : l₁.Nodup) (n₂ : l₂.Nodup)
    (h : ∀ y, y ∈ l₁ ↔ y ∈ l₂) : l₁ = l₂ :=
  List.eq_of_perm_of_sorted ((List.perm_ext_iff_of_nodup n₁ n₂).mpr h) s₁ s₂

theorem mergeFold_noop (inc : List (Nat × String)) :
    ∀ cur : List (Nat × String),
    (∀ p ∈ inc, (reasonsFind cur p.1).isSome = true) →
    inc.foldl (fun acc p => if (reasonsFind acc p.1).isSome then acc
      else acc ++ [p]) cur = cur := by
  induction inc with
  | nil => intro cur _; rfl
  | cons p rest ih =>
    intro cur h
    rw [List.foldl_cons, if_pos (h p (List.mem_cons_self _ _))]
    exact ih cur (fun q hq => h q (List.mem_cons_of_mem _ hq))

/-- Merging a canonically-shaped activity period with its own stored
serialization is the identity: the heart of idempotence of
`populate_core_stations` (lines 753-772 against 822-862). -/
theorem merge_self_eq (avail : List Nat) (s e : Nat) (obs miss : List Nat)
    (reas : List (Nat × String))
    (hs : obs.Sorted (· ≤ ·)) (hn : obs.Nodup)
    (hmiss : miss = (avail.filter (fun y => s ≤ y ∧ y ≤ e)).filter
      (fun y => y ∉ obs))
    (hreas : reas = miss.map (fun y => (y, "data_gap"))) :
    _merge_activity_periods avail
      (ActivityPeriod.from_json_string
        (some (ActivityPeriod.to_json_string ⟨s, e, obs, miss, reas⟩))).to_dict
      ⟨s, e, obs, miss, reas⟩ = ⟨s, e, obs, miss, reas⟩ := by
  have hobs : pysorted obs = obs := pysorted_eq_self hs
  have hObsEq : pysorted ((obs ++ obs).dedup) = obs := by
    refine sorted_nodup_ext (pysorted_sorted _) hs
      (((pysorted_perm _).nodup_iff).mpr (List.nodup_dedup _)) hn ?_
    intro y
    rw [(pysorted_perm _).mem_iff]
    simp [List.mem_dedup]
  have hfold : reas.foldl
      (fun acc p => if (reasonsFind acc p.1).isSome then acc else acc ++ [p])
      reas = reas := by
    refine mergeFold_noop reas reas ?_
    intro p hp
    rw [hreas] at hp
    obtain ⟨y, hy, hyp⟩ := List.mem_map.mp hp
    have h1 : p.1 = y := by rw [← hyp]
    rw [h1, hreas, reasonsFind_map_const hy]
    rfl
  simp only [_merge_activity_periods, ActivityPeriod.from_json_string,
    ActivityPeriod.to_json_string, ActivityPeriod.to_dict, PeriodDict.dumps,
    List.map_map, map_digits_roundtrip, hobs, Nat.min_self, Nat.max_self,
    List.mem_dedup, List.mem_append, or_self, hObsEq, hfold]
  rw [← hmiss]

/-- For a candidate with a non-empty, duplicate-free snapshot set, re-merging
its freshly stored activity period with itself changes nothing. -/
theorem merge_station_roundtrip (avail : List Nat) (c : StationCandidate)
    (hne : c.snapshots ≠ []) (hnd : c.snapshots.Nodup) :
    _merge_activity_periods avail
      (ActivityPeriod.from_json_string
        (some (c.get_activity_period avail).to_json_string)).to_dict
      (c.get_activity_period avail) = c.get_activity_period avail := by
  have hap : c.get_activity_period avail =
      ⟨(pysorted c.snapshots).headI, (pysorted c.snapshots).getLastD 0,
        pysorted c.snapshots,
        (avail.filter (fun y => (pysorted c.snapshots).headI ≤ y ∧
          y ≤ (pysorted c.snapshots).getLastD 0)).filter
            (fun y => y ∉ pysorted c.snapshots),
        ((avail.filter (fun y => (pysorted c.snapshots).headI ≤ y ∧
          y ≤ (pysorted c.snapshots).getLastD 0)).filter
            (fun y => y ∉ pysorted c.snapshots)).map
              (fun y => (y, "data_gap"))⟩ := by
    simp only [StationCandidate.get_activity_period, if_neg hne]
  rw [hap]
  exact merge_self_eq avail _ _ _ _ _ (pysorted_sorted _)
    (((pysorted_perm _).nodup_iff).mpr hnd) rfl rfl

theorem find?_isSome_of_mem {α : Type} {p : α → Bool} {l : List α} {a : α}
    (ha : a ∈ l) (hp : p a = true) : (l.find? p).isSome = true := by
  induction l with
  | nil => cases ha
  | cons b t ih =>
    by_cases hb : p b = true
    · rw [List.find?_cons_of_pos _ hb]; rfl
    · rcases List.mem_cons.mp ha with rfl | ha
      · exact absurd hp hb
      · rw [List.find?_cons_of_neg _ hb]; exact ih ha

theorem keys_nodup_inj {β : Type} {l : List (String × β)}
    (h : (l.map (fun p => p.1)).Nodup) :
    ∀ {p q : String × β}, p ∈ l → q ∈ l → p.1 = q.1 → p = q := by
  induction l with
  | nil => intro p q hp _ _; cases hp
  | cons a t ih =>
    rw [List.map_cons, List.nodup_cons] at h
    intro p q hp hq he
    rcases List.mem_cons.mp hp with hp1 | hp2
    · rcases List.mem_cons.mp hq with hq1 | hq2
      · rw [hp1, hq1]
      · exact absurd (List.mem_map.mpr ⟨q, hq2, (hp1 ▸ he).symm⟩) h.1
    · rcases List.mem_cons.mp hq with hq1 | hq2
      · exact absurd (List.mem_map.mpr ⟨p, hp2, hq1 ▸ he⟩) h.1
      · exact ih h.2 hp2 hq2 he

/-- First-run characterization of `populate_core_stations` over fresh keys
and fresh edges (lines 718-820): each candidate appends its created node,
the snapshot index is untouched, and the edge list grows by exactly one
fresh `HAS_SNAPSHOT` edge per linkable snapshot id of each candidate. -/
theorem populate_fresh_spec (avail : List Nat) (now : Nat) :
    ∀ (cands : List (String × StationCandidate)) (st : Store),
    (cands.map (fun p => p.1)).Nodup →
    (∀ p ∈ cands, st.coreStations.find? (fun n => n.core_id = p.1) = none) →
    (∀ p ∈ cands, p.2.snapshot_ids.Nodup) →
    (∀ p ∈ cands, ∀ sid ∈ p.2.snapshot_ids,
      (⟨p.1, sid, now, p.2.source_confidence⟩ : SnapshotEdge) ∉
        st.stationSnapshotEdges) →
    (populate_core_stations avail now cands st).coreStations =
      st.coreStations ++ cands.map (fun p => createdStationNode avail now p.1 p.2) ∧
    (populate_core_stations avail now cands st).stations = st.stations ∧
    (populate_core_stations avail now cands st).stationSnapshotEdges =
      st.stationSnapshotEdges ++
        (cands.map (linkedStationEdges now st.stations)).flatten := by
  intro cands
  induction cands with
  | nil =>
    intro st _ _ _ _
    exact ⟨by simp [populate_core_stations], rfl, by simp [populate_core_stations]⟩
  | cons q rest ih =>
    intro st hnd hfresh hsids hefresh
    rw [List.map_cons, List.nodup_cons] at hnd
    obtain ⟨hqfresh, hrestnd⟩ := hnd
    have hq : st.coreStations.find? (fun n => n.core_id = q.1) = none :=
      hfresh q (List.mem_cons_self _ _)
    have hcreate : populateStationStep avail now st q =
        linkStationSnapshots q.1 q.2.snapshot_ids q.2.source_confidence now
          { st with coreStations :=
              st.coreStations ++ [createdStationNode avail now q.1 q.2] } := by
      simp only [populateStationStep, hq, createdStationNode]
    have hany : (({ st with coreStations :=
        st.coreStations ++ [createdStationNode avail now q.1 q.2] } :
          Store).coreStations.any (fun n => n.core_id = q.1)) = true := by
      refine List.any_eq_true.mpr ⟨createdStationNode avail now q.1 q.2, ?_, ?_⟩
      · exact List.mem_append_right _ (List.mem_singleton.mpr rfl)
      · simp [createdStationNode]
    have hstep : populateStationStep avail now st q =
        { st with
            coreStations := st.coreStations ++ [createdStationNode avail now q.1 q.2]
            stationSnapshotEdges := st.stationSnapshotEdges ++
                                      linkedStationEdges now st.stations q } := by
      rw [hcreate, link_station_append q.1 q.2.source_confidence now
        q.2.snapshot_ids _ hany (hsids q (List.mem_cons_self _ _))
        (fun sid hsid => hefresh q (List.mem_cons_self _ _) sid hsid)]
      rfl
    have hstations : (populateStationStep avail now st q).stations = st.stations := by
      rw [hstep]
    have hedges : (populateStationStep avail now st q).stationSnapshotEdges =
        st.stationSnapshotEdges ++ linkedStationEdges now st.stations q := by
      rw [hstep]
    have hcs : (populateStationStep avail now st q).coreStations =
        st.coreStations ++ [createdStationNode avail now q.1 q.2] := by
      rw [hstep]
    have hP : populate_core_stations avail now (q :: rest) st =
        populate_core_stations avail now rest (populateStationStep avail now st q) := rfl
    have hfresh2 : ∀ p ∈ rest,
        (populateStationStep avail now st q).coreStations.find?
          (fun n => n.core_id = p.1) = none := by
      intro p hp
      rw [hcs, find?_or_append, hfresh p (List.mem_cons_of_mem _ hp)]
      have hne : ¬ ((createdStationNode avail now q.1 q.2).core_id = p.1) := by
        intro hcontra
        exact hqfresh (List.mem_map.mpr ⟨p, hp, by
          simpa [createdStationNode] using hcontra.symm⟩)
      rw [List.find?_cons_of_neg _ (by simpa using hne), List.find?_nil]
      rfl
    have hefresh2 : ∀ p ∈ rest, ∀ sid ∈ p.2.snapshot_ids,
        (⟨p.1, sid, now, p.2.source_confidence⟩ : SnapshotEdge) ∉
          (populateStationStep avail now st q).stationSnapshotEdges := by
      intro p hp sid hsid hmem
      rw [hedges] at hmem
      rcases List.mem_append.mp hmem with h | h
      · exact hefresh p (List.mem_cons_of_mem _ hp) sid hsid h
      · obtain ⟨sid2, _, heq⟩ := List.mem_map.mp h
        have hqp : q.1 = p.1 := congrArg SnapshotEdge.core_id heq
        exact hqfresh (List.mem_map.mpr ⟨p, hp, hqp.symm⟩)
    obtain ⟨i1, i2, i3⟩ := ih (populateStationStep avail now st q) hrestnd hfresh2
      (fun p hp => hsids p (List.mem_cons_of_mem _ hp)) hefresh2
    rw [hstations, hedges] at i3
    refine ⟨?_, ?_, ?_⟩
    · rw [hP, i1, hcs]
      simp [List.append_assoc]
    · rw [hP, i2, hstations]
    · rw [hP, i3, List.map_cons, List.flatten_cons, List.append_assoc]


theorem find?_map_core_id (k : String) (f : CoreStationNode → CoreStationNode)
    (hf : ∀ n, (f n).core_id = n.core_id) :
    ∀ l : List CoreStationNode,
    (l.map f).find? (fun n => n.core_id = k) =
      (l.find? (fun n => n.core_id = k)).map f := by
  intro l
  induction l with
  | nil => rfl
  | cons a t ih =>
    by_cases ha : a.core_id = k
    · rw [List.map_cons, List.find?_cons_of_pos _ (by simp [hf, ha]),
        List.find?_cons_of_pos _ (by simp [ha])]
      rfl
    · rw [List.map_cons, List.find?_cons_of_neg _ (by simp [hf, ha]),
        List.find?_cons_of_neg _ (by simp [ha]), ih]

theorem find?_strip_congr (k : String) :
    ∀ (l₁ l₂ : List CoreStationNode),
    l₁.map stripStation = l₂.map stripStation →
    (l₁.find? (fun n => n.core_id = k)).map stripStation =
      (l₂.find? (fun n => n.core_id = k)).map stripStation := by
  intro l₁
  induction l₁ with
  | nil =>
    intro l₂ h
    rw [List.map_nil] at h
    rw [List.map_eq_nil.mp h.symm]
  | cons a t ih =>
    intro l₂ h
    cases l₂ with
    | nil => simp at h
    | cons b u =>
      rw [List.map_cons, List.map_cons] at h
      obtain ⟨hab, htu⟩ := List.cons.injEq _ _ _ _ ▸ h
      have hcore : a.core_id = b.core_id := by
        simpa [stripStation] using congrArg (fun n : CoreStationNode => n.core_id) hab
      by_cases ha : a.core_id = k
      · rw [List.find?_cons_of_pos _ (by simp [ha]),
          List.find?_cons_of_pos _ (by simp [← hcore, ha])]
        simpa using hab
      · rw [List.find?_cons_of_neg _ (by simp [ha]),
          List.find?_cons_of_neg _ (by simp [← hcore, ha])]
        exact ih u htu

/-- The node rewrite performed by the update path of `populate_core_stations`
(lines 759-772) when the stored period already equals the candidate's fresh
period. -/
def stationUpdate (avail : List Nat) (now : Nat) (q : String × StationCandidate) :
    CoreStationNode → CoreStationNode :=
  fun n =>
    if n.core_id = q.1 then
      { n with
        activity_period := some ((q.2.get_activity_period avail).to_json_string)
        source_confidence := q.2.source_confidence
        updated_date := some now
        latitude := q.2.location.1
        longitude := q.2.location.2 }
    else n

theorem stationUpdate_core_id (avail : List Nat) (now : Nat)
    (q : String × StationCandidate) (n : CoreStationNode) :
    (stationUpdate avail now q n).core_id = n.core_id := by
  simp only [stationUpdate]
  split_ifs with h <;> rfl

/-- Second pass of `populate_core_stations` over candidates whose nodes are
already stored with their freshly computed activity periods: the nodes change
only in `updated_date`, but — because the `MERGE` pattern's `created_date:
datetime()` never matches the stored edges of an earlier run — the pass
appends one NEW `HAS_SNAPSHOT` edge per linkable snapshot id. -/
theorem populate_second_pass (avail : List Nat) (now : Nat) :
    ∀ (cands : List (String × StationCandidate)) (st : Store),
    (cands.map (fun p => p.1)).Nodup →
    (∀ p ∈ cands, p.2.snapshots ≠ [] ∧ p.2.snapshots.Nodup) →
    (∀ p ∈ cands, p.2.snapshot_ids.Nodup) →
    (∀ p ∈ cands, ∀ n ∈ st.coreStations, n.core_id = p.1 →
      n.activity_period = some ((p.2.get_activity_period avail).to_json_string) ∧
      n.source_confidence = p.2.source_confidence ∧
      n.latitude = p.2.location.1 ∧ n.longitude = p.2.location.2) →
    (∀ p ∈ cands,
      (st.coreStations.find? (fun n => n.core_id = p.1)).isSome = true) →
    (∀ p ∈ cands, ∀ sid ∈ p.2.snapshot_ids,
      (⟨p.1, sid, now, p.2.source_confidence⟩ : SnapshotEdge) ∉
        st.stationSnapshotEdges) →
    (populate_core_stations avail now cands st).coreStations.map stripStation =
      st.coreStations.map stripStation ∧
    (populate_core_stations avail now cands st).stations = st.stations ∧
    (populate_core_stations avail now cands st).stationSnapshotEdges =
      st.stationSnapshotEdges ++
        (cands.map (linkedStationEdges now st.stations)).flatten := by
  intro cands
  induction cands with
  | nil =>
    intro st _ _ _ _ _ _
    exact ⟨rfl, rfl, by simp [populate_core_stations]⟩
  | cons q rest ih =>
    intro st hkeys hcand hsids hnode hsome hefresh
    rw [List.map_cons, List.nodup_cons] at hkeys
    obtain ⟨hqk, hrestk⟩ := hkeys
    rcases hfind : st.coreStations.find? (fun n => n.core_id = q.1) with _ | n0
    · have := hsome q (List.mem_cons_self _ _)
      rw [hfind] at this
      exact absurd this (by simp)
    · have hn0mem : n0 ∈ st.coreStations := List.mem_of_find?_eq_some hfind
      have hpn0 := List.find?_some hfind
      have hn0id : n0.core_id = q.1 := of_decide_eq_true hpn0
      obtain ⟨hn0ap, -, -, -⟩ := hnode q (List.mem_cons_self _ _) n0 hn0mem hn0id
      have hupd := merge_station_roundtrip avail q.2
        (hcand q (List.mem_cons_self _ _)).1 (hcand q (List.mem_cons_self _ _)).2
      have hstep : populateStationStep avail now st q =
          linkStationSnapshots q.1 q.2.snapshot_ids q.2.source_confidence now
            { st with coreStations :=
                st.coreStations.map (stationUpdate avail now q) } := by
        simp only [populateStationStep, hfind, hn0ap, hupd, stationUpdate]
        rfl
      have hany : (({ st with coreStations :=
            st.coreStations.map (stationUpdate avail now q) } :
              Store).coreStations.any (fun n => n.core_id = q.1)) = true := by
        refine List.any_eq_true.mpr
          ⟨stationUpdate avail now q n0, List.mem_map_of_mem _ hn0mem, ?_⟩
        simp [stationUpdate_core_id, hn0id]
      have hstep2 : populateStationStep avail now st q =
          { st with
              coreStations := st.coreStations.map (stationUpdate avail now q)
              stationSnapshotEdges := st.stationSnapshotEdges ++
                                        linkedStationEdges now st.stations q } := by
        rw [hstep, link_station_append q.1 q.2.source_confidence now
          q.2.snapshot_ids
          { st with coreStations := st.coreStations.map (stationUpdate avail now q) }
          hany (hsids q (List.mem_cons_self _ _))
          (fun sid hsid => hefresh q (List.mem_cons_self _ _) sid hsid)]
        rfl
      have hcs2 : (populateStationStep avail now st q).coreStations =
          st.coreStations.map (stationUpdate avail now q) := by
        rw [hstep2]
      have hstations2 : (populateStationStep avail now st q).stations =
          st.stations := by
        rw [hstep2]
      have hedges2 : (populateStationStep avail now st q).stationSnapshotEdges =
          st.stationSnapshotEdges ++ linkedStationEdges now st.stations q := by
        rw [hstep2]
      have hmap : (st.coreStations.map (stationUpdate avail now q)).map stripStation =
          st.coreStations.map stripStation := by
        rw [List.map_map]
        refine List.map_congr_left ?_
        intro n hn
        show stripStation (stationUpdate avail now q n) = stripStation n
        by_cases hid : n.core_id = q.1
        · obtain ⟨hap, hconf, hlat, hlon⟩ :=
            hnode q (List.mem_cons_self _ _) n hn hid
          simp only [stationUpdate]
          rw [if_pos hid]
          simp [stripStation, hap, hconf, hlat, hlon]
        · simp only [stationUpdate]
          rw [if_neg hid]
      have hnode2 : ∀ p ∈ rest,
          ∀ n2 ∈ (populateStationStep avail now st q).coreStations,
          n2.core_id = p.1 →
          n2.activity_period =
            some ((p.2.get_activity_period avail).to_json_string) ∧
          n2.source_confidence = p.2.source_confidence ∧
          n2.latitude = p.2.location.1 ∧ n2.longitude = p.2.location.2 := by
        intro p hp n2 hn2 hid2
        rw [hcs2] at hn2
        obtain ⟨n, hn, rfl⟩ := List.mem_map.mp hn2
        have hneq : ¬ (n.core_id = q.1) := by
          intro hcontra
          apply hqk
          refine List.mem_map.mpr ⟨p, hp, ?_⟩
          rw [← hid2, stationUpdate_core_id, hcontra]
        have hfn : stationUpdate avail now q n = n := by
          simp only [stationUpdate]
          rw [if_neg hneq]
        rw [hfn] at hid2 ⊢
        exact hnode p (List.mem_cons_of_mem _ hp) n hn hid2
      have hsome2 : ∀ p ∈ rest,
          ((populateStationStep avail now st q).coreStations.find?
            (fun n => n.core_id = p.1)).isSome = true := by
        intro p hp
        rw [hcs2, find?_map_core_id p.1 _ (stationUpdate_core_id avail now q)]
        rcases hx : st.coreStations.find? (fun n => n.core_id = p.1) with _ | v
        · have := hsome p (List.mem_cons_of_mem _ hp)
          rw [hx] at this
          exact absurd this (by simp)
        · rw [hx]
          rfl
      have hefresh2 : ∀ p ∈ rest, ∀ sid ∈ p.2.snapshot_ids,
          (⟨p.1, sid, now, p.2.source_confidence⟩ : SnapshotEdge) ∉
            (populateStationStep avail now st q).stationSnapshotEdges := by
        intro p hp sid hsid hmem
        rw [hedges2] at hmem
        rcases List.mem_append.mp hmem with h | h
        · exact hefresh p (List.mem_cons_of_mem _ hp) sid hsid h
        · obtain ⟨sid2, -, heq⟩ := List.mem_map.mp h
          have hqp : q.1 = p.1 := congrArg SnapshotEdge.core_id heq
          exact hqk (List.mem_map.mpr ⟨p, hp, hqp.symm⟩)
      obtain ⟨j1, j2, j3⟩ := ih (populateStationStep avail now st q) hrestk
        (fun p hp => hcand p (List.mem_cons_of_mem _ hp))
        (fun p hp => hsids p (List.mem_cons_of_mem _ hp))
        hnode2 hsome2 hefresh2
      rw [hstations2, hedges2] at j3
      have hP : populate_core_stations avail now (q :: rest) st =
          populate_core_stations avail now rest
            (populateStationStep avail now st q) := rfl
      refine ⟨?_, ?_, ?_⟩
      · rw [hP, j1, hcs2]
        exact hmap
      · rw [hP, j2, hstations2]
      · rw [hP, j3, List.map_cons, List.flatten_cons, List.append_assoc]


theorem length_filter_flatten {α : Type} (pred : α → Bool) :
    ∀ (l : List (List α)),
    ((l.flatten).filter pred).length =
      (l.map (fun part => (part.filter pred).length)).sum := by
  intro l
  induction l with
  | nil => rfl
  | cons a t ih =>
    rw [List.flatten_cons, List.filter_append, List.length_append,
      List.map_cons, List.sum_cons, ih]

/-- Counting a candidate's own edges in the edges a linking pass wrote for a
whole (distinct-keyed) candidate dictionary: only the candidate's own block
survives the filter. -/
theorem linked_count (nowX : Nat) (stx : List String) :
    ∀ (cands : List (String × StationCandidate)),
    (cands.map (fun p => p.1)).Nodup →
    ∀ p ∈ cands,
    (((cands.map (linkedStationEdges nowX stx)).flatten).filter
        (fun e => e.core_id = p.1 ∧ e.snapshot_id ∈ p.2.snapshot_ids)).length =
      (p.2.snapshot_ids.filter (fun sid => sid ∈ stx)).length := by
  intro cands
  induction cands with
  | nil => intro _ p hp; exact absurd hp (List.not_mem_nil p)
  | cons q rest ih =>
    intro hnd p hp
    rw [List.map_cons, List.nodup_cons] at hnd
    obtain ⟨hqk, hrestnd⟩ := hnd
    rw [List.map_cons, List.flatten_cons, List.filter_append, List.length_append]
    rcases List.mem_cons.mp hp with rfl | hp2
    · have hhead : (linkedStationEdges nowX stx p).filter
          (fun e => e.core_id = p.1 ∧ e.snapshot_id ∈ p.2.snapshot_ids) =
          linkedStationEdges nowX stx p := by
        refine List.filter_eq_self.mpr ?_
        intro e he
        obtain ⟨sid, hsid, rfl⟩ := List.mem_map.mp he
        simp only [decide_eq_true_eq]
        exact ⟨trivial, (List.mem_filter.mp hsid).1⟩
      have hrest : ((rest.map (linkedStationEdges nowX stx)).flatten).filter
          (fun e => e.core_id = p.1 ∧ e.snapshot_id ∈ p.2.snapshot_ids) = [] := by
        refine List.filter_eq_nil_iff.mpr ?_
        intro e he hpred
        obtain ⟨part, hpart, hemem⟩ := List.mem_flatten.mp he
        obtain ⟨q2, hq2, rfl⟩ := List.mem_map.mp hpart
        obtain ⟨sid, -, rfl⟩ := List.mem_map.mp hemem
        simp only [decide_eq_true_eq] at hpred
        exact hqk (List.mem_map.mpr ⟨q2, hq2, hpred.1⟩)
      rw [hhead, hrest, linkedStationEdges, List.length_map]
      simp
    · have hhead : (linkedStationEdges nowX stx q).filter
          (fun e => e.core_id = p.1 ∧ e.snapshot_id ∈ p.2.snapshot_ids) = [] := by
        refine List.filter_eq_nil_iff.mpr ?_
        intro e he hpred
        obtain ⟨sid, -, rfl⟩ := List.mem_map.mp he
        simp only [decide_eq_true_eq] at hpred
        exact hqk (List.mem_map.mpr ⟨p, hp2, hpred.1.symm⟩)
      rw [hhead, ih hrestnd p hp2]
      simp

/-- C1 (amended).  On a store with no pre-existing Core entities or
`HAS_SNAPSHOT` edges, a second run of `populate_core_stations` with the same
candidate dictionary and a later timestamp leaves each candidate's
CoreStation node count and stored activity period unchanged — provided every
candidate's observed snapshot set is non-empty (sets, so duplicate-free) —
but NOT its `HAS_SNAPSHOT` edge count: the `MERGE` pattern's property map
contains `datetime()`, a match criterion, so no stored edge of the first run
matches and the second run creates one new parallel edge per linkable
snapshot id, doubling the per-candidate edge count. -/
theorem c1_populate_core_stations_idempotent_amended
    (avail : List Nat) (now1 now2 : Nat)
    (cands : List (String × StationCandidate)) (st0 : Store)
    (hempty : st0.coreStations = [])
    (hnoedges : st0.stationSnapshotEdges = [])
    (hnow : ¬ (now1 = now2))
    (hkeys : (cands.map (fun p => p.1)).Nodup)
    (hsnap : ∀ p ∈ cands, p.2.snapshots ≠ [] ∧ p.2.snapshots.Nodup)
    (hsids : ∀ p ∈ cands, p.2.snapshot_ids.Nodup) :
    ∀ p ∈ cands,
      countCoreStations
          (populate_core_stations avail now2 cands
            (populate_core_stations avail now1 cands st0)) p.1 =
        countCoreStations (populate_core_stations avail now1 cands st0) p.1 ∧
      storedStationPeriod
          (populate_core_stations avail now2 cands
            (populate_core_stations avail now1 cands st0)) p.1 =
        storedStationPeriod (populate_core_stations avail now1 cands st0) p.1 ∧
      snapshotEdgeCount (populate_core_stations avail now1 cands st0) p.1
          p.2.snapshot_ids =
        (p.2.snapshot_ids.filter (fun sid => sid ∈ st0.stations)).length ∧
      snapshotEdgeCount
          (populate_core_stations avail now2 cands
            (populate_core_stations avail now1 cands st0)) p.1 p.2.snapshot_ids =
        2 * (p.2.snapshot_ids.filter (fun sid => sid ∈ st0.stations)).length := by
  intro p hp
  obtain ⟨a1, a2, a3⟩ := populate_fresh_spec avail now1 cands st0 hkeys
    (fun p hp => by rw [hempty]; rfl) hsids
    (fun p hp sid hsid => by rw [hnoedges]; exact List.not_mem_nil _)
  have hcs1 : (populate_core_stations avail now1 cands st0).coreStations =
      cands.map (fun p => createdStationNode avail now1 p.1 p.2) := by
    rw [a1, hempty, List.nil_append]
  have hedges1 : (populate_core_stations avail now1 cands st0).stationSnapshotEdges =
      (cands.map (linkedStationEdges now1 st0.stations)).flatten := by
    rw [a3, hnoedges, List.nil_append]
  have hnode1 : ∀ p ∈ cands,
      ∀ n ∈ (populate_core_stations avail now1 cands st0).coreStations,
      n.core_id = p.1 →
      n.activity_period = some ((p.2.get_activity_period avail).to_json_string) ∧
      n.source_confidence = p.2.source_confidence ∧
      n.latitude = p.2.location.1 ∧ n.longitude = p.2.location.2 := by
    intro p2 hp2 n hn hid
    rw [hcs1] at hn
    obtain ⟨p3, hp3, rfl⟩ := List.mem_map.mp hn
    have hcid : (createdStationNode avail now1 p3.1 p3.2).core_id = p3.1 := rfl
    rw [hcid] at hid
    obtain rfl := keys_nodup_inj hkeys hp3 hp2 hid
    exact ⟨rfl, rfl, rfl, rfl⟩
  have hsome1 : ∀ p ∈ cands,
      ((populate_core_stations avail now1 cands st0).coreStations.find?
        (fun n => n.core_id = p.1)).isSome = true := by
    intro p2 hp2
    rw [hcs1]
    exact find?_isSome_of_mem (List.mem_map.mpr ⟨p2, hp2, rfl⟩)
      (by simp [createdStationNode])
  have hefresh1 : ∀ p ∈ cands, ∀ sid ∈ p.2.snapshot_ids,
      (⟨p.1, sid, now2, p.2.source_confidence⟩ : SnapshotEdge) ∉
        (populate_core_stations avail now1 cands st0).stationSnapshotEdges := by
    intro p2 hp2 sid hsid hmem
    rw [hedges1] at hmem
    obtain ⟨part, hpart, hemem⟩ := List.mem_flatten.mp hmem
    obtain ⟨q2, -, rfl⟩ := List.mem_map.mp hpart
    obtain ⟨sid2, -, heq⟩ := List.mem_map.mp hemem
    exact hnow (congrArg SnapshotEdge.created_date heq)
  obtain ⟨j1, j2, j3⟩ := populate_second_pass avail now2 cands
    (populate_core_stations avail now1 cands st0) hkeys hsnap hsids
    hnode1 hsome1 hefresh1
  rw [a2, hedges1] at j3
  refine ⟨?_, ?_, ?_, ?_⟩
  · have hcount := congrArg (List.countP (fun n => n.core_id = p.1)) j1
    rw [List.countP_map, List.countP_map] at hcount
    simp only [countCoreStations, ← List.countP_eq_length_filter]
    exact hcount
  · have hfind := find?_strip_congr p.1 _ _ j1
    have hcomp := congrArg (Option.map (fun n => n.activity_period)) hfind
    rw [Option.map_map, Option.map_map] at hcomp
    simp only [storedStationPeriod]
    exact hcomp
  · simp only [snapshotEdgeCount]
    rw [hedges1]
    exact linked_count now1 st0.stations cands hkeys p hp
  · simp only [snapshotEdgeCount]
    rw [j3, List.filter_append, List.length_append,
      linked_count now1 st0.stations cands hkeys p hp,
      linked_count now2 st0.stations cands hkeys p hp]
    omega

/-- A candidate whose observed snapshot set is empty: `get_activity_period`
returns the degenerate zero period for it. -/
def c1badCand : StationCandidate :=
  { name := "X"
    type := "tram"
    location := (0, 0)
    east_west := "west"
    snapshot_ids := ["s1"]
    snapshots := []
    source_confidence := 1 }

/-- A well-formed candidate: one snapshot station, one observed year. -/
def c1goodCand : StationCandidate :=
  { name := "A"
    type := "tram"
    location := (1, 2)
    east_west := "west"
    snapshot_ids := ["s1"]
    snapshots := [1960]
    source_confidence := 1 }

/-- An initial store with no Core entities, no edges and one snapshot
station. -/
def c1store : Store :=
  { coreStations := []
    coreLines := []
    stations := ["s1"]
    lines := []
    stationSnapshotEdges := []
    lineSnapshotEdges := [] }

/-- C1 counterexample.  Running `populate_core_stations` twice is not
idempotent: (i) even for a well-formed candidate, the second run's `MERGE`
pattern carries a fresh `datetime()` that matches no stored edge, so a
duplicate `HAS_SNAPSHOT` edge is created and the edge count differs; and
(ii) for a candidate with an empty observed snapshot set and a year catalog
containing year 0, the stored activity period also differs (the re-merge of
the zero period records year 0 as missing). -/
theorem c1_idempotence_counterexample :
    ¬ (snapshotEdgeCount
          (populate_core_stations [1960] 1 [("ca", c1goodCand)]
            (populate_core_stations [1960] 0 [("ca", c1goodCand)] c1store)) "ca"
          c1goodCand.snapshot_ids =
        snapshotEdgeCount
          (populate_core_stations [1960] 0 [("ca", c1goodCand)] c1store) "ca"
          c1goodCand.snapshot_ids) ∧
    ¬ ((storedStationPeriod
          (populate_core_stations [0] 1 [("cx", c1badCand)]
            (populate_core_stations [0] 0 [("cx", c1badCand)] c1store)) "cx").map
          (Option.map (fun j => j.missing_snapshots)) =
        (storedStationPeriod
          (populate_core_stations [0] 0 [("cx", c1badCand)] c1store) "cx").map
          (Option.map (fun j => j.missing_snapshots))) := by
  exact ⟨by decide, by decide⟩

theorem c1_populate_core_stations_idempotent_amended_witness :
    countCoreStations
        (populate_core_stations [1960] 7 [("ca", c1goodCand)]
          (populate_core_stations [1960] 3 [("ca", c1goodCand)] c1store)) "ca" =
      countCoreStations
        (populate_core_stations [1960] 3 [("ca", c1goodCand)] c1store) "ca" ∧
    storedStationPeriod
        (populate_core_stations [1960] 7 [("ca", c1goodCand)]
          (populate_core_stations [1960] 3 [("ca", c1goodCand)] c1store)) "ca" =
      storedStationPeriod
        (populate_core_stations [1960] 3 [("ca", c1goodCand)] c1store) "ca" ∧
    snapshotEdgeCount
        (populate_core_stations [1960] 3 [("ca", c1goodCand)] c1store) "ca"
        c1goodCand.snapshot_ids =
      (c1goodCand.snapshot_ids.filter (fun sid => sid ∈ c1store.stations)).length ∧
    snapshotEdgeCount
        (populate_core_stations [1960] 7 [("ca", c1goodCand)]
          (populate_core_stations [1960] 3 [("ca", c1goodCand)] c1store)) "ca"
        c1goodCand.snapshot_ids =
      2 * (c1goodCand.snapshot_ids.filter (fun sid => sid ∈ c1store.stations)).length :=
  c1_populate_core_stations_idempotent_amended [1960] 3 7 [("ca", c1goodCand)]
    c1store rfl rfl (by decide) (by decide)
    (by
      intro p hp
      rcases List.mem_cons.mp hp with rfl | h
      · exact ⟨by decide, by decide⟩
      · cases h)
    (by decide)
    ("ca", c1goodCand) (List.mem_cons_self _ _)


/-! ## C7: connected-components correctness -/

theorem dfsGo_nil (adj : String → List String) (valid : List String)
    (vc : List String × List String) :
    (dfsGo adj valid [] vc).val = vc := by
  simp [dfsGo]

theorem dfsGo_cons_skip (adj : String → List String) (valid : List String)
    (c : String) (cs : List String) (vc : List String × List String)
    (h : c ∈ vc.1 ∨ c ∉ valid) :
    (dfsGo adj valid (c :: cs) vc).val = (dfsGo adj valid cs vc).val := by
  rw [dfsGo, dif_pos h]

theorem dfsGo_cons_visit (adj : String → List String) (valid : List String)
    (c : String) (cs : List String) (vc : List String × List String)
    (h : ¬ (c ∈ vc.1 ∨ c ∉ valid)) :
    (dfsGo adj valid (c :: cs) vc).val =
      (dfsGo adj valid cs
        (dfsGo adj valid (adj c) (vc.1 ++ [c], vc.2 ++ [c])).val).val := by
  rw [dfsGo, dif_neg h]

/-- The visited list only grows. -/
theorem dfsGo_visited_mono (adj : String → List String) (valid : List String)
    (pending : List String) (vc : List String × List String) :
    ∀ x ∈ vc.1, x ∈ (dfsGo adj valid pending vc).val.1 := by
  intro x hx
  obtain ⟨t, h1, _⟩ := (dfsGo adj valid pending vc).property
  rw [h1]
  exact List.mem_append_left t hx

/-- Every valid pending vertex ends up visited. -/
theorem dfsGo_pending_mem (adj : String → List String) (valid : List String) :
    ∀ (n : Nat) (vc : List String × List String),
    unvisitedCount valid vc.1 < n →
    ∀ (pending : List String), ∀ c ∈ pending, c ∈ valid →
    c ∈ (dfsGo adj valid pending vc).val.1 := by
  intro n
  induction n with
  | zero => intro vc hn; exact absurd hn (Nat.not_lt_zero _)
  | succ n ihn =>
    intro vc hn pending
    induction pending with
    | nil => intro c hc; cases hc
    | cons c0 cs ihp =>
      intro c hc hcv
      by_cases hg : c0 ∈ vc.1 ∨ c0 ∉ valid
      · rw [dfsGo_cons_skip adj valid c0 cs vc hg]
        rcases List.mem_cons.mp hc with rfl | hc'
        · rcases hg with hg1 | hg2
          · exact dfsGo_visited_mono adj valid cs vc c hg1
          · exact absurd hcv hg2
        · exact ihp c hc' hcv
      · rw [dfsGo_cons_visit adj valid c0 cs vc hg]
        push_neg at hg
        have hm1 : unvisitedCount valid
            (dfsGo adj valid (adj c0) (vc.1 ++ [c0], vc.2 ++ [c0])).val.1 < n := by
          obtain ⟨t1, h11, _⟩ :=
            (dfsGo adj valid (adj c0) (vc.1 ++ [c0], vc.2 ++ [c0])).property
          have hlt : unvisitedCount valid (vc.1 ++ [c0]) < unvisitedCount valid vc.1 :=
            unvisitedCount_lt valid vc.1 hg.2 hg.1
          have hle : unvisitedCount valid
              (dfsGo adj valid (adj c0) (vc.1 ++ [c0], vc.2 ++ [c0])).val.1 ≤
              unvisitedCount valid (vc.1 ++ [c0]) := by
            rw [h11]
            exact unvisitedCount_append_le valid (vc.1 ++ [c0]) t1
          omega
        rcases List.mem_cons.mp hc with rfl | hc'
        · refine dfsGo_visited_mono adj valid cs _ c ?_
          refine dfsGo_visited_mono adj valid (adj c) _ c ?_
          exact List.mem_append_right _ (List.mem_singleton.mpr rfl)
        · exact ihn _ hm1 cs c hc' hcv

/-- The DFS never visits a vertex twice. -/
theorem dfsGo_nodup (adj : String → List String) (valid : List String) :
    ∀ (n : Nat) (vc : List String × List String),
    unvisitedCount valid vc.1 < n →
    ∀ (pending : List String), vc.1.Nodup →
    (dfsGo adj valid pending vc).val.1.Nodup := by
  intro n
  induction n with
  | zero => intro vc hn; exact absurd hn (Nat.not_lt_zero _)
  | succ n ihn =>
    intro vc hn pending
    induction pending with
    | nil => intro h; rw [dfsGo_nil]; exact h
    | cons c0 cs ihp =>
      intro hv
      by_cases hg : c0 ∈ vc.1 ∨ c0 ∉ valid
      · rw [dfsGo_cons_skip adj valid c0 cs vc hg]
        exact ihp hv
      · rw [dfsGo_cons_visit adj valid c0 cs vc hg]
        push_neg at hg
        have hm1 : unvisitedCount valid
            (dfsGo adj valid (adj c0) (vc.1 ++ [c0], vc.2 ++ [c0])).val.1 < n := by
          obtain ⟨t1, h11, _⟩ :=
            (dfsGo adj valid (adj c0) (vc.1 ++ [c0], vc.2 ++ [c0])).property
          have hlt : unvisitedCount valid (vc.1 ++ [c0]) < unvisitedCount valid vc.1 :=
            unvisitedCount_lt valid vc.1 hg.2 hg.1
          have hle : unvisitedCount valid
              (dfsGo adj valid (adj c0) (vc.1 ++ [c0], vc.2 ++ [c0])).val.1 ≤
              unvisitedCount valid (vc.1 ++ [c0]) := by
            rw [h11]
            exact unvisitedCount_append_le valid (vc.1 ++ [c0]) t1
          omega
        have hm0 : unvisitedCount valid (vc.1 ++ [c0]) < n := by
          have hlt : unvisitedCount valid (vc.1 ++ [c0]) < unvisitedCount valid vc.1 :=
            unvisitedCount_lt valid vc.1 hg.2 hg.1
          omega
        refine ihn _ hm1 cs ?_
        refine ihn _ hm0 (adj c0) ?_
        simp [List.nodup_append, hv, hg.1]

/-- Soundness: when same-side adjacency is closed within `valid`, a DFS whose
pending vertices all lie on side `b` only ever visits side-`b` vertices
(beyond those already visited). -/
theorem dfsGo_side (adj : String → List String) (valid : List String)
    (side : String → Bool) (b : Bool)
    (hclosed : ∀ s ∈ valid, side s = b → ∀ o ∈ adj s, o ∈ valid → side o = b) :
    ∀ (n : Nat) (vc : List String × List String),
    unvisitedCount valid vc.1 < n →
    ∀ (pending : List String),
    (∀ c ∈ pending, c ∈ valid → side c = b) →
    ∀ x ∈ (dfsGo adj valid pending vc).val.1,
      x ∈ vc.1 ∨ (x ∈ valid ∧ side x = b) := by
  intro n
  induction n with
  | zero => intro vc hn; exact absurd hn (Nat.not_lt_zero _)
  | succ n ihn =>
    intro vc hn pending
    induction pending with
    | nil =>
      intro _ x hx
      rw [dfsGo_nil] at hx
      exact Or.inl hx
    | cons c0 cs ihp =>
      intro hpend x hx
      by_cases hg : c0 ∈ vc.1 ∨ c0 ∉ valid
      · rw [dfsGo_cons_skip adj valid c0 cs vc hg] at hx
        exact ihp (fun c hc => hpend c (List.mem_cons_of_mem _ hc)) x hx
      · rw [dfsGo_cons_visit adj valid c0 cs vc hg] at hx
        push_neg at hg
        have hb0 : side c0 = b := hpend c0 (List.mem_cons_self _ _) hg.2
        have hm1 : unvisitedCount valid
            (dfsGo adj valid (adj c0) (vc.1 ++ [c0], vc.2 ++ [c0])).val.1 < n := by
          obtain ⟨t1, h11, _⟩ :=
            (dfsGo adj valid (adj c0) (vc.1 ++ [c0], vc.2 ++ [c0])).property
          have hlt : unvisitedCount valid (vc.1 ++ [c0]) < unvisitedCount valid vc.1 :=
            unvisitedCount_lt valid vc.1 hg.2 hg.1
          have hle : unvisitedCount valid
              (dfsGo adj valid (adj c0) (vc.1 ++ [c0], vc.2 ++ [c0])).val.1 ≤
              unvisitedCount valid (vc.1 ++ [c0]) := by
            rw [h11]
            exact unvisitedCount_append_le valid (vc.1 ++ [c0]) t1
          omega
        have hm0 : unvisitedCount valid (vc.1 ++ [c0]) < n := by
          have hlt : unvisitedCount valid (vc.1 ++ [c0]) < unvisitedCount valid vc.1 :=
            unvisitedCount_lt valid vc.1 hg.2 hg.1
          omega
        have hx2 := ihn _ hm1 cs (fun c hc => hpend c (List.mem_cons_of_mem _ hc)) x hx
        rcases hx2 with hx2 | hx2
        · have hx3 := ihn (vc.1 ++ [c0], vc.2 ++ [c0]) hm0 (adj c0)
            (fun o ho hov => hclosed c0 hg.2 hb0 o ho hov) x hx2
          rcases hx3 with hx3 | hx3
          · rcases List.mem_append.mp hx3 with hx4 | hx4
            · exact Or.inl hx4
            · have hx5 : x = c0 := List.mem_singleton.mp hx4
              exact Or.inr ⟨by rw [hx5]; exact hg.2, by rw [hx5, hb0]⟩
          · exact Or.inr hx3
        · exact Or.inr hx2

/-- Completeness invariant: if the visited set is adjacency-closed up to the
pending worklist and an `extra` reserve, then the final visited set is
adjacency-closed up to `extra`. -/
theorem dfsGo_inv (adj : String → List String) (valid : List String) :
    ∀ (n : Nat) (vc : List String × List String),
    unvisitedCount valid vc.1 < n →
    ∀ (pending extra : List String),
    (∀ x ∈ vc.1, ∀ o ∈ adj x, o ∈ valid →
      o ∈ vc.1 ∨ o ∈ pending ∨ o ∈ extra) →
    ∀ x ∈ (dfsGo adj valid pending vc).val.1, ∀ o ∈ adj x, o ∈ valid →
      o ∈ (dfsGo adj valid pending vc).val.1 ∨ o ∈ extra := by
  intro n
  induction n with
  | zero => intro vc hn; exact absurd hn (Nat.not_lt_zero _)
  | succ n ihn =>
    intro vc hn pending
    induction pending with
    | nil =>
      intro extra hinv x hx o ho hov
      rw [dfsGo_nil] at hx ⊢
      rcases hinv x hx o ho hov with h | h | h
      · exact Or.inl h
      · exact absurd h (List.not_mem_nil o)
      · exact Or.inr h
    | cons c0 cs ihp =>
      intro extra hinv x hx o ho hov
      by_cases hg : c0 ∈ vc.1 ∨ c0 ∉ valid
      · rw [dfsGo_cons_skip adj valid c0 cs vc hg] at hx ⊢
        refine ihp extra ?_ x hx o ho hov
        intro x' hx' o' ho' hov'
        rcases hinv x' hx' o' ho' hov' with h | h | h
        · exact Or.inl h
        · rcases List.mem_cons.mp h with rfl | h2
          · rcases hg with hg1 | hg2
            · exact Or.inl hg1
            · exact absurd hov' hg2
          · exact Or.inr (Or.inl h2)
        · exact Or.inr (Or.inr h)
      · rw [dfsGo_cons_visit adj valid c0 cs vc hg] at hx ⊢
        push_neg at hg
        have hm1 : unvisitedCount valid
            (dfsGo adj valid (adj c0) (vc.1 ++ [c0], vc.2 ++ [c0])).val.1 < n := by
          obtain ⟨t1, h11, _⟩ :=
            (dfsGo adj valid (adj c0) (vc.1 ++ [c0], vc.2 ++ [c0])).property
          have hlt : unvisitedCount valid (vc.1 ++ [c0]) < unvisitedCount valid vc.1 :=
            unvisitedCount_lt valid vc.1 hg.2 hg.1
          have hle : unvisitedCount valid
              (dfsGo adj valid (adj c0) (vc.1 ++ [c0], vc.2 ++ [c0])).val.1 ≤
              unvisitedCount valid (vc.1 ++ [c0]) := by
            rw [h11]
            exact unvisitedCount_append_le valid (vc.1 ++ [c0]) t1
          omega
        have hm0 : unvisitedCount valid (vc.1 ++ [c0]) < n := by
          have hlt : unvisitedCount valid (vc.1 ++ [c0]) < unvisitedCount valid vc.1 :=
            unvisitedCount_lt valid vc.1 hg.2 hg.1
          omega
        have hinner := ihn (vc.1 ++ [c0], vc.2 ++ [c0]) hm0 (adj c0) (cs ++ extra) ?hinv1
        case hinv1 =>
          intro x' hx' o' ho' hov'
          rcases List.mem_append.mp hx' with hx'' | hx''
          · rcases hinv x' hx'' o' ho' hov' with h | h | h
            · exact Or.inl (List.mem_append_left _ h)
            · rcases List.mem_cons.mp h with rfl | h2
              · exact Or.inl (List.mem_append_right _ (List.mem_singleton.mpr rfl))
              · exact Or.inr (Or.inr (List.mem_append_left _ h2))
            · exact Or.inr (Or.inr (List.mem_append_right _ h))
          · have hx0 : x' = c0 := List.mem_singleton.mp hx''
            rw [hx0] at ho'
            exact Or.inr (Or.inl ho')
        refine ihn _ hm1 cs extra ?_ x hx o ho hov
        intro x' hx' o' ho' hov'
        rcases hinner x' hx' o' ho' hov' with h | h
        · exact Or.inl h
        · rcases List.mem_append.mp h with h2 | h2
          · exact Or.inr (Or.inl h2)
          · exact Or.inr (Or.inr h2)

theorem reach_mem_of_closed (adj : String → List String) (valid : List String)
    (S : List String)
    (hcl : ∀ u ∈ S, ∀ o ∈ adj u, o ∈ valid → o ∈ S)
    {x y : String}
    (hxy : Relation.ReflTransGen (fun u v => v ∈ adj u ∧ v ∈ valid) x y)
    (hx : x ∈ S) : y ∈ S := by
  induction hxy with
  | refl => exact hx
  | tail h1 h2 ih => exact hcl _ ih _ h2.1 h2.2

/-- One outer DFS call from a fresh root `x` of side `b`, over a visited set
containing no side-`b` vertices: the new component is exactly the side-`b`
members of `valid`, and the visited set stays adjacency-closed and
duplicate-free. -/
theorem dfs_component_char (adj : String → List String) (valid : List String)
    (side : String → Bool) (b : Bool)
    (hclosed : ∀ s ∈ valid, ∀ o ∈ adj s, o ∈ valid → side o = side s)
    (V : List String) (x : String)
    (hx : x ∈ valid) (hxb : side x = b)
    (hVnd : V.Nodup)
    (hVcl : ∀ u ∈ V, ∀ o ∈ adj u, o ∈ valid → o ∈ V)
    (hVb : ∀ v ∈ V, ¬ side v = b)
    (hreach : ∀ y ∈ valid, side y = b →
      Relation.ReflTransGen (fun u v => v ∈ adj u ∧ v ∈ valid) x y) :
    ∃ t, (dfsGo adj valid [x] (V, ([] : List String))).val.1 = V ++ t ∧
      (dfsGo adj valid [x] (V, ([] : List String))).val.2 = t ∧
      t ≠ [] ∧
      (∀ y, y ∈ t ↔ y ∈ valid ∧ side y = b) ∧
      (∀ u ∈ V ++ t, ∀ o ∈ adj u, o ∈ valid → o ∈ V ++ t) ∧
      (V ++ t).Nodup := by
  obtain ⟨t, h1, h2⟩ := (dfsGo adj valid [x] (V, ([] : List String))).property
  have hlt : unvisitedCount valid V < unvisitedCount valid V + 1 := Nat.lt_succ_self _
  have hnd : (dfsGo adj valid [x] (V, ([] : List String))).val.1.Nodup :=
    dfsGo_nodup adj valid (unvisitedCount valid V + 1) (V, []) hlt [x] hVnd
  have hroot : x ∈ (dfsGo adj valid [x] (V, ([] : List String))).val.1 :=
    dfsGo_pending_mem adj valid (unvisitedCount valid V + 1) (V, []) hlt [x] x
      (List.mem_singleton.mpr rfl) hx
  have hsound : ∀ y ∈ (dfsGo adj valid [x] (V, ([] : List String))).val.1,
      y ∈ V ∨ (y ∈ valid ∧ side y = b) :=
    dfsGo_side adj valid side b
      (fun s hs hsb o ho hov => by rw [hclosed s hs o ho hov, hsb])
      (unvisitedCount valid V + 1) (V, []) hlt [x]
      (fun c hc _ => by rw [List.mem_singleton.mp hc, hxb])
  have hcl : ∀ u ∈ (dfsGo adj valid [x] (V, ([] : List String))).val.1,
      ∀ o ∈ adj u, o ∈ valid →
      o ∈ (dfsGo adj valid [x] (V, ([] : List String))).val.1 := by
    intro u hu o ho hov
    have := dfsGo_inv adj valid (unvisitedCount valid V + 1) (V, []) hlt [x] []
      (fun u' hu' o' ho' hov' => Or.inl (hVcl u' hu' o' ho' hov'))
      u hu o ho hov
    rcases this with h | h
    · exact h
    · exact absurd h (List.not_mem_nil o)
  have hndt : (V ++ t).Nodup := by rw [← h1]; exact hnd
  have hdisj : ∀ y ∈ t, y ∉ V := by
    intro y hy hyV
    exact (List.disjoint_of_nodup_append hndt) hyV hy
  have hxnotV : x ∉ V := fun hxV => hVb x hxV hxb
  have hxt : x ∈ t := by
    have := hroot
    rw [h1] at this
    rcases List.mem_append.mp this with h | h
    · exact absurd h hxnotV
    · exact h
  refine ⟨t, h1, by rw [h2]; exact List.nil_append t, List.ne_nil_of_mem hxt,
    ?_, ?_, hndt⟩
  · intro y
    constructor
    · intro hy
      have hym : y ∈ (dfsGo adj valid [x] (V, ([] : List String))).val.1 := by
        rw [h1]
        exact List.mem_append_right V hy
      rcases hsound y hym with h | h
      · exact absurd h (hdisj y hy)
      · exact h
    · intro ⟨hyv, hyb⟩
      have hym : y ∈ (dfsGo adj valid [x] (V, ([] : List String))).val.1 :=
        reach_mem_of_closed adj valid _ hcl (hreach y hyv hyb) hroot
      rw [h1] at hym
      rcases List.mem_append.mp hym with h | h
      · exact absurd hyb (hVb y h)
      · exact h
  · intro u hu o ho hov
    rw [← h1] at hu ⊢
    exact hcl u hu o ho hov

/-- The per-station body of the component fold in `_find_connected_components`
(lines 313-320). -/
def fccStep (adj : String → List String) (ids : List String) :
    (List String × List (List String)) → String → (List String × List (List String)) :=
  fun st sid =>
    if sid ∈ st.1 then st
    else
      let d := dfsGo adj ids [sid] (st.1, [])
      (d.val.1, if d.val.2 ≠ [] then st.2 ++ [d.val.2] else st.2)

/-- A group with no internal adjacency edges is kept as a single component. -/
theorem fcc_no_edges (adj : String → List String) (ids : List String)
    (hnoedge : ∀ s ∈ ids, ∀ o ∈ ids, o ≠ s → o ∉ adj s) :
    _find_connected_components ids adj = [ids] := by
  by_cases hlen : ids.length ≤ 1
  · simp only [_find_connected_components]
    rw [if_pos hlen]
  · have hfalse : (ids.any (fun s =>
        ids.any (fun o => decide (o ≠ s ∧ o ∈ adj s)))) = false := by
      refine List.any_eq_false.mpr ?_
      intro s hs
      rw [Bool.not_eq_true]
      refine List.any_eq_false.mpr ?_
      intro o ho
      simp only [decide_eq_true_eq]
      exact fun h => hnoedge s hs o ho h.1 h.2
    simp only [_find_connected_components, hfalse]
    rw [if_neg hlen, if_pos trivial]

/-- Two-sided partition: `_find_connected_components` returns exactly the two
side classes, first the side of the first listed station. -/
theorem fcc_two_components (adj : String → List String) (ids : List String)
    (side : String → Bool)
    (hclosed : ∀ s ∈ ids, ∀ o ∈ adj s, o ∈ ids → side o = side s)
    (hconn : ∀ u ∈ ids, ∀ v ∈ ids, side u = side v →
      Relation.ReflTransGen (fun p q => q ∈ adj p ∧ q ∈ ids) u v)
    (hhead : side ids.headI = true)
    (hB : ∃ b ∈ ids, side b = false)
    (hne : ids ≠ [])
    (hhasc : (ids.any (fun s =>
      ids.any (fun o => decide (o ≠ s ∧ o ∈ adj s)))) = true) :
    ∃ t₀ t₁, _find_connected_components ids adj = [t₀, t₁] ∧
      (∀ y, y ∈ t₀ ↔ y ∈ ids ∧ side y = true) ∧
      (∀ y, y ∈ t₁ ↔ y ∈ ids ∧ side y = false) := by
  obtain ⟨e₀, rest, rfl⟩ := List.exists_cons_of_ne_nil hne
  have he0 : side e₀ = true := hhead
  obtain ⟨b, hb, hbf⟩ := hB
  have hbrest : b ∈ rest := by
    rcases List.mem_cons.mp hb with rfl | h
    · rw [he0] at hbf; cases hbf
    · exact h
  have hlen : ¬ ((e₀ :: rest).length ≤ 1) := by
    have : 0 < rest.length := List.length_pos.mpr (List.ne_nil_of_mem hbrest)
    simp only [List.length_cons]
    omega
  have hfcc2 : _find_connected_components (e₀ :: rest) adj =
      ((e₀ :: rest).foldl (fccStep adj (e₀ :: rest)) ([], [])).2 := by
    simp only [_find_connected_components, hhasc]
    rw [if_neg hlen, if_neg (by simp)]
    rfl
  -- phase 0: the DFS from e₀ collects the whole true side
  obtain ⟨t₀, f1, f2, f3, f4, f5, f6⟩ := dfs_component_char adj (e₀ :: rest) side true
    hclosed [] e₀ (List.mem_cons_self _ _) he0 List.nodup_nil
    (fun u hu => absurd hu (List.not_mem_nil u))
    (fun v hv => absurd hv (List.not_mem_nil v))
    (fun y hy hyb => hconn e₀ (List.mem_cons_self _ _) y hy (by rw [he0, hyb]))
  rw [List.nil_append] at f1 f5 f6
  -- skipping lemma
  have hskip : ∀ (r : List String) (V : List String) (C : List (List String)),
      (∀ z ∈ r, z ∈ V) → r.foldl (fccStep adj (e₀ :: rest)) (V, C) = (V, C) := by
    intro r
    induction r with
    | nil => intro V C _; rfl
    | cons z r' ih =>
      intro V C h
      rw [List.foldl_cons]
      have hz : fccStep adj (e₀ :: rest) (V, C) z = (V, C) := by
        simp only [fccStep]
        rw [if_pos (h z (List.mem_cons_self _ _))]
      rw [hz]
      exact ih V C (fun z' hz' => h z' (List.mem_cons_of_mem _ hz'))
  -- phase 1: fold the tail from state (t₀, [t₀])
  have htail : ∀ (r : List String), (∀ z ∈ r, z ∈ (e₀ :: rest)) →
      (∃ z ∈ r, side z = false) →
      ∃ t₁, r.foldl (fccStep adj (e₀ :: rest)) (t₀, [t₀]) = (t₀ ++ t₁, [t₀, t₁]) ∧
        (∀ y, y ∈ t₁ ↔ y ∈ (e₀ :: rest) ∧ side y = false) := by
    intro r
    induction r with
    | nil =>
      intro _ hex
      obtain ⟨z, hz, _⟩ := hex
      exact absurd hz (List.not_mem_nil z)
    | cons z r' ih =>
      intro hr hex
      by_cases hzs : side z = true
      · have hzt : z ∈ t₀ := (f4 z).mpr ⟨hr z (List.mem_cons_self _ _), hzs⟩
        have hz : fccStep adj (e₀ :: rest) (t₀, [t₀]) z = (t₀, [t₀]) := by
          simp only [fccStep]
          rw [if_pos hzt]
        rw [List.foldl_cons, hz]
        refine ih (fun z' hz' => hr z' (List.mem_cons_of_mem _ hz')) ?_
        obtain ⟨z', hz', hz's⟩ := hex
        rcases List.mem_cons.mp hz' with rfl | h
        · rw [hzs] at hz's; cases hz's
        · exact ⟨z', h, hz's⟩
      · have hzf : side z = false := by
          revert hzs
          cases side z <;> simp
        have hznt : z ∉ t₀ := fun h => absurd ((f4 z).mp h).2 hzs
        obtain ⟨t₁, g1, g2, g3, g4, g5, g6⟩ := dfs_component_char adj (e₀ :: rest)
          side false hclosed t₀ z (hr z (List.mem_cons_self _ _)) hzf f6 f5
          (fun v hv hvf => by rw [((f4 v).mp hv).2] at hvf; cases hvf)
          (fun y hy hyb => hconn z (hr z (List.mem_cons_self _ _)) y hy
            (by rw [hzf, hyb]))
        have hz : fccStep adj (e₀ :: rest) (t₀, [t₀]) z = (t₀ ++ t₁, [t₀, t₁]) := by
          simp only [fccStep]
          rw [if_neg hznt]
          rw [g2]
          rw [if_pos g3]
          rw [g1]
          rfl
        rw [List.foldl_cons, hz]
        rw [hskip r' (t₀ ++ t₁) [t₀, t₁] ?_]
        · exact ⟨t₁, rfl, g4⟩
        · intro z' hz'
          have hzid : z' ∈ (e₀ :: rest) := hr z' (List.mem_cons_of_mem _ hz')
          by_cases hz's : side z' = true
          · exact List.mem_append_left _ ((f4 z').mpr ⟨hzid, hz's⟩)
          · have : side z' = false := by
              revert hz's
              cases side z' <;> simp
            exact List.mem_append_right _ ((g4 z').mpr ⟨hzid, this⟩)
  -- assemble
  have hstep0 : fccStep adj (e₀ :: rest) ([], []) e₀ = (t₀, [t₀]) := by
    simp only [fccStep]
    rw [if_neg (List.not_mem_nil e₀)]
    rw [f2]
    rw [if_pos f3]
    rw [f1]
    rfl
  obtain ⟨t₁, hfold, hchar1⟩ := htail rest
    (fun z hz => List.mem_cons_of_mem _ hz) ⟨b, hbrest, hbf⟩
  refine ⟨t₀, t₁, ?_, f4, hchar1⟩
  rw [hfcc2, List.foldl_cons, hstep0, hfold]

/-- The candidate `analyze_snapshot_stations` builds for a member list
(lines 267-285): averages, dedup'd id/year sets and confidence computed over
the given stations. -/
def wholeGroupCandidate (cosr : Rat → Rat) (name ttype ew : String)
    (stations : List SnapStation) : StationCandidate :=
  { name := name
    type := ttype
    location := ((stations.map (·.latitude)).sum / (stations.length : Rat),
      (stations.map (·.longitude)).sum / (stations.length : Rat))
    east_west := ew
    snapshot_ids := (stations.map (·.stop_id)).dedup
    snapshots := (stations.map (·.year)).dedup
    source_confidence := _calculate_station_confidence cosr stations }

/-- The candidate built for one connected component: the group rows whose
stop id lies in the component. -/
def componentCandidate (cosr : Rat → Rat) (name ttype ew : String)
    (stations : List SnapStation) (comp : List String) : StationCandidate :=
  wholeGroupCandidate cosr name ttype ew
    (stations.filter (fun s => s.stop_id ∈ comp))

theorem string_append_ne_of_data_ne (a : String) {s t : String}
    (h : ¬ s.data = t.data) : ¬ (a ++ s = a ++ t) := by
  intro he
  apply h
  have hd := congrArg String.data he
  rw [String.data_append, String.data_append] at hd
  exact List.append_cancel_left hd

theorem resolveGroup_no_edges (cosr : Rat → Rat) (adj : String → List String)
    (name ttype ew : String) (stations : List SnapStation)
    (hne : stations ≠ [])
    (hnoedge : ∀ s ∈ stations.map (fun st => st.stop_id),
      ∀ o ∈ stations.map (fun st => st.stop_id), o ≠ s → o ∉ adj s) :
    resolveStationGroup cosr adj name ttype ew stations =
      [("core_" ++ (name.replace " " "_").toLower ++ "_" ++ ttype ++ "_" ++ ew,
        wholeGroupCandidate cosr name ttype ew stations)] := by
  have hlen0 : ¬ (stations.length = 0) := fun h => hne (List.length_eq_zero.mp h)
  have hfcc := fcc_no_edges adj (stations.map (fun st => st.stop_id)) hnoedge
  have hfilt : stations.filter
      (fun s => s.stop_id ∈ stations.map (fun st => st.stop_id)) = stations := by
    refine List.filter_eq_self.mpr ?_
    intro s hs
    simp only [decide_eq_true_eq]
    exact List.mem_map.mpr ⟨s, hs, rfl⟩
  simp only [resolveStationGroup]
  rw [if_neg hlen0, hfcc]
  rw [show List.enum [stations.map (fun st => st.stop_id)] =
      [(0, stations.map (fun st => st.stop_id))] from rfl]
  rw [List.filterMap_cons]
  dsimp only
  rw [hfilt]
  rw [if_neg hlen0]
  rw [if_neg (by norm_num : ¬ (([stations.map (fun st => st.stop_id)] :
    List (List String)).length > 1))]
  simp [wholeGroupCandidate, String.append_empty]

theorem resolveGroup_two_components (cosr : Rat → Rat) (adj : String → List String)
    (name ttype ew : String) (stations : List SnapStation) (side : String → Bool)
    (hne : stations ≠ [])
    (hclosed : ∀ s ∈ stations.map (fun st => st.stop_id), ∀ o ∈ adj s,
      o ∈ stations.map (fun st => st.stop_id) → side o = side s)
    (hconn : ∀ u ∈ stations.map (fun st => st.stop_id),
      ∀ v ∈ stations.map (fun st => st.stop_id), side u = side v →
      Relation.ReflTransGen (fun p q => q ∈ adj p ∧
        q ∈ stations.map (fun st => st.stop_id)) u v)
    (hhead : side (stations.map (fun st => st.stop_id)).headI = true)
    (hB : ∃ b ∈ stations.map (fun st => st.stop_id), side b = false)
    (hhasc : ((stations.map (fun st => st.stop_id)).any (fun s =>
      (stations.map (fun st => st.stop_id)).any
        (fun o => decide (o ≠ s ∧ o ∈ adj s)))) = true) :
    ∃ t₀ t₁,
      _find_connected_components (stations.map (fun st => st.stop_id)) adj
        = [t₀, t₁] ∧
      (∀ y, y ∈ t₀ ↔ y ∈ stations.map (fun st => st.stop_id) ∧ side y = true) ∧
      (∀ y, y ∈ t₁ ↔ y ∈ stations.map (fun st => st.stop_id) ∧ side y = false) ∧
      resolveStationGroup cosr adj name ttype ew stations =
        [("core_" ++ (name.replace " " "_").toLower ++ "_" ++ ttype ++ "_" ++ ew ++
            ("_" ++ toString 0),
          componentCandidate cosr name ttype ew stations t₀),
         ("core_" ++ (name.replace " " "_").toLower ++ "_" ++ ttype ++ "_" ++ ew ++
            ("_" ++ toString 1),
          componentCandidate cosr name ttype ew stations t₁)] := by
  have hmapne : stations.map (fun st => st.stop_id) ≠ [] := by
    simpa using hne
  obtain ⟨t₀, t₁, hfcc, hc0, hc1⟩ := fcc_two_components adj
    (stations.map (fun st => st.stop_id)) side hclosed hconn hhead hB hmapne hhasc
  have hlen0 : ¬ (stations.length = 0) := fun h => hne (List.length_eq_zero.mp h)
  have he0mem : (stations.map (fun st => st.stop_id)).headI ∈
      stations.map (fun st => st.stop_id) := by
    obtain ⟨a, l, hx⟩ := List.exists_cons_of_ne_nil hmapne
    rw [hx]
    exact List.mem_cons_self _ _
  have he0t0 : (stations.map (fun st => st.stop_id)).headI ∈ t₀ :=
    (hc0 _).mpr ⟨he0mem, hhead⟩
  have hdata0 : ¬ ((stations.filter (fun s => s.stop_id ∈ t₀)).length = 0) := by
    intro h
    obtain ⟨s0, hs0, hs0id⟩ := List.mem_map.mp he0mem
    have hmem : s0 ∈ stations.filter (fun s => s.stop_id ∈ t₀) :=
      List.mem_filter.mpr ⟨hs0, by rw [hs0id]; exact decide_eq_true he0t0⟩
    rw [List.length_eq_zero.mp h] at hmem
    exact absurd hmem (List.not_mem_nil s0)
  obtain ⟨b, hbmem, hbf⟩ := hB
  have hbt1 : b ∈ t₁ := (hc1 b).mpr ⟨hbmem, hbf⟩
  have hdata1 : ¬ ((stations.filter (fun s => s.stop_id ∈ t₁)).length = 0) := by
    intro h
    obtain ⟨sb, hsb, hsbid⟩ := List.mem_map.mp hbmem
    have hmem : sb ∈ stations.filter (fun s => s.stop_id ∈ t₁) :=
      List.mem_filter.mpr ⟨hsb, by rw [hsbid]; exact decide_eq_true hbt1⟩
    rw [List.length_eq_zero.mp h] at hmem
    exact absurd hmem (List.not_mem_nil sb)
  have hgt : ([t₀, t₁] : List (List String)).length > 1 := by norm_num
  refine ⟨t₀, t₁, hfcc, hc0, hc1, ?_⟩
  simp only [resolveStationGroup]
  rw [if_neg hlen0, hfcc]
  rw [show List.enum [t₀, t₁] = [(0, t₀), (1, t₁)] from rfl]
  rw [List.filterMap_cons]
  dsimp only
  rw [if_neg hdata0]
  rw [List.filterMap_cons]
  dsimp only
  rw [if_neg hdata1]
  rw [List.filterMap_nil]
  rw [if_pos hgt, if_pos hgt]
  simp [componentCandidate, wholeGroupCandidate]

/-- C7.  For every `(name, type, side)` station group, the candidates
produced are exactly the connected components of the group's members under
the adjacency relation restricted to the group: (i) a group with no internal
adjacency edges yields exactly one candidate containing all members, keyed by
the unsuffixed core id; (ii) a group whose members split into two disjoint
adjacency classes (each internally connected, with at least one internal
edge) yields exactly two candidates with distinct numerically suffixed core
ids, each with its own independently computed mean location, snapshot sets
and confidence over exactly its component's rows. -/
theorem c7_connected_components_correct (cosr : Rat → Rat)
    (adj : String → List String) (name ttype ew : String)
    (stations : List SnapStation) (side : String → Bool) :
    (stations ≠ [] →
      (∀ s ∈ stations.map (fun st => st.stop_id),
        ∀ o ∈ stations.map (fun st => st.stop_id), o ≠ s → o ∉ adj s) →
      resolveStationGroup cosr adj name ttype ew stations =
        [("core_" ++ (name.replace " " "_").toLower ++ "_" ++ ttype ++ "_" ++ ew,
          wholeGroupCandidate cosr name ttype ew stations)]) ∧
    (stations ≠ [] →
      (∀ s ∈ stations.map (fun st => st.stop_id), ∀ o ∈ adj s,
        o ∈ stations.map (fun st => st.stop_id) → side o = side s) →
      (∀ u ∈ stations.map (fun st => st.stop_id),
        ∀ v ∈ stations.map (fun st => st.stop_id), side u = side v →
        Relation.ReflTransGen (fun p q => q ∈ adj p ∧
          q ∈ stations.map (fun st => st.stop_id)) u v) →
      side (stations.map (fun st => st.stop_id)).headI = true →
      (∃ b ∈ stations.map (fun st => st.stop_id), side b = false) →
      ((stations.map (fun st => st.stop_id)).any (fun s =>
        (stations.map (fun st => st.stop_id)).any
          (fun o => decide (o ≠ s ∧ o ∈ adj s)))) = true →
      ∃ t₀ t₁,
        _find_connected_components (stations.map (fun st => st.stop_id)) adj
          = [t₀, t₁] ∧
        (∀ y, y ∈ t₀ ↔ y ∈ stations.map (fun st => st.stop_id) ∧ side y = true) ∧
        (∀ y, y ∈ t₁ ↔ y ∈ stations.map (fun st => st.stop_id) ∧ side y = false) ∧
        resolveStationGroup cosr adj name ttype ew stations =
          [("core_" ++ (name.replace " " "_").toLower ++ "_" ++ ttype ++ "_" ++ ew ++
              ("_" ++ toString 0),
            componentCandidate cosr name ttype ew stations t₀),
           ("core_" ++ (name.replace " " "_").toLower ++ "_" ++ ttype ++ "_" ++ ew ++
              ("_" ++ toString 1),
            componentCandidate cosr name ttype ew stations t₁)] ∧
        ("core_" ++ (name.replace " " "_").toLower ++ "_" ++ ttype ++ "_" ++ ew ++
            ("_" ++ toString 0)) ≠
          ("core_" ++ (name.replace " " "_").toLower ++ "_" ++ ttype ++ "_" ++ ew ++
            ("_" ++ toString 1))) := by
  constructor
  · exact fun hne hnoedge =>
      resolveGroup_no_edges cosr adj name ttype ew stations hne hnoedge
  · intro hne hclosed hconn hhead hB hhasc
    obtain ⟨t₀, t₁, h1, h2, h3, h4⟩ := resolveGroup_two_components cosr adj
      name ttype ew stations side hne hclosed hconn hhead hB hhasc
    exact ⟨t₀, t₁, h1, h2, h3, h4,
      string_append_ne_of_data_ne _ (by decide)⟩

/-- A concrete snapshot-station row for the component witnesses. -/
def c7st (i : String) (y : Nat) : SnapStation :=
  { stop_id := i
    name := "Alexanderplatz"
    type := "tram"
    latitude := 0
    longitude := 0
    east_west := "east"
    year := y
    source := "fahrplanbuch" }

/-- No adjacency at all. -/
def c7adj0 : String → List String := fun _ => []

/-- Two disjoint triangles: a-b-c and d-e-f. -/
def c7adj2 : String → List String := fun s =>
  if s = "a" then ["b", "c"]
  else if s = "b" then ["a", "c"]
  else if s = "c" then ["a", "b"]
  else if s = "d" then ["e", "f"]
  else if s = "e" then ["d", "f"]
  else if s = "f" then ["d", "e"]
  else []

def c7stations3 : List SnapStation := [c7st "a" 1960, c7st "b" 1961, c7st "c" 1962]

def c7stations6 : List SnapStation :=
  [c7st "a" 1960, c7st "b" 1960, c7st "c" 1960,
   c7st "d" 1960, c7st "e" 1960, c7st "f" 1960]

def c7side : String → Bool := fun s => decide (s = "a" ∨ s = "b" ∨ s = "c")

theorem c7_connected_components_correct_witness :
    (resolveStationGroup (fun _ => (0 : Rat)) c7adj0 "Alexanderplatz" "tram" "east"
        c7stations3 =
      [("core_" ++ ("Alexanderplatz".replace " " "_").toLower ++ "_" ++ "tram" ++
          "_" ++ "east",
        wholeGroupCandidate (fun _ => (0 : Rat)) "Alexanderplatz" "tram" "east"
          c7stations3)]) ∧
    (∃ t₀ t₁,
      _find_connected_components (c7stations6.map (fun st => st.stop_id)) c7adj2
        = [t₀, t₁] ∧
      (∀ y, y ∈ t₀ ↔ y ∈ c7stations6.map (fun st => st.stop_id) ∧
        c7side y = true) ∧
      (∀ y, y ∈ t₁ ↔ y ∈ c7stations6.map (fun st => st.stop_id) ∧
        c7side y = false) ∧
      resolveStationGroup (fun _ => (0 : Rat)) c7adj2 "Alexanderplatz" "tram" "east"
          c7stations6 =
        [("core_" ++ ("Alexanderplatz".replace " " "_").toLower ++ "_" ++ "tram" ++
            "_" ++ "east" ++ ("_" ++ toString 0),
          componentCandidate (fun _ => (0 : Rat)) "Alexanderplatz" "tram" "east"
            c7stations6 t₀),
         ("core_" ++ ("Alexanderplatz".replace " " "_").toLower ++ "_" ++ "tram" ++
            "_" ++ "east" ++ ("_" ++ toString 1),
          componentCandidate (fun _ => (0 : Rat)) "Alexanderplatz" "tram" "east"
            c7stations6 t₁)] ∧
      ("core_" ++ ("Alexanderplatz".replace " " "_").toLower ++ "_" ++ "tram" ++
          "_" ++ "east" ++ ("_" ++ toString 0)) ≠
        ("core_" ++ ("Alexanderplatz".replace " " "_").toLower ++ "_" ++ "tram" ++
          "_" ++ "east" ++ ("_" ++ toString 1))) := by
  constructor
  · exact (c7_connected_components_correct (fun _ => (0 : Rat)) c7adj0
      "Alexanderplatz" "tram" "east" c7stations3 c7side).1
      (List.cons_ne_nil _ _)
      (fun s _ o _ _ => by simp [c7adj0])
  · refine (c7_connected_components_correct (fun _ => (0 : Rat)) c7adj2
      "Alexanderplatz" "tram" "east" c7stations6 c7side).2
      (List.cons_ne_nil _ _) (by decide) ?_ (by decide)
      ⟨"d", by decide, by decide⟩ (by decide)
    intro u hu v hv hs
    simp only [c7stations6, c7st, List.map_cons, List.map_nil, List.mem_cons,
      List.not_mem_nil, or_false] at hu hv
    rcases hu with rfl | rfl | rfl | rfl | rfl | rfl <;>
      rcases hv with rfl | rfl | rfl | rfl | rfl | rfl <;>
      first
        | exact Relation.ReflTransGen.refl
        | exact Relation.ReflTransGen.single ⟨by decide, by decide⟩
        | exact absurd hs (by decide)
